import Mathlib

/-!
Verification development for the Rhodi traced-document core
(`src/core/src`).  The Rust sources are shallowly embedded: strings are
`List Char`, byte strings are `List Nat` (each entry < 256), fallible
operations return `Except RhodiError`, the ambient clock and randomness
are passed as explicit arguments, and the external crates (SHA-256,
Ed25519, the regex / jsonpath engines, serde-YAML) are modelled by
deterministic computable stand-ins or explicit parameters, as noted at
each definition.
-/

set_option maxRecDepth 40000
set_option maxHeartbeats 1000000

-- Equality of `Except` results is decided componentwise; core provides
-- no such instance.
deriving instance DecidableEq for Except

namespace Rhodi

/-! ## Character-level utilities (models of the Rust `str` primitives) -/

/-- Model of Rust `char::is_whitespace`: the Unicode `White_Space`
property (UAX #44, `PropList.txt`). -/
def isRustWhitespace (c : Char) : Bool :=
  let n := c.toNat
  (0x09 ≤ n && n ≤ 0x0D) || n == 0x20 || n == 0x85 || n == 0xA0 ||
  n == 0x1680 || (0x2000 ≤ n && n ≤ 0x200A) || n == 0x2028 ||
  n == 0x2029 || n == 0x202F || n == 0x205F || n == 0x3000

/-- Model of Rust `char::is_control`: general category `Cc`,
i.e. U+0000..U+001F and U+007F..U+009F. -/
def isRustControl (c : Char) : Bool :=
  c.toNat ≤ 0x1F || (0x7F ≤ c.toNat && c.toNat ≤ 0x9F)

/-- Model of Rust `str::trim_end`: drop trailing whitespace characters. -/
def trimEndChars (l : List Char) : List Char :=
  (l.reverse.dropWhile isRustWhitespace).reverse

/-- Model of Rust `str::trim_start`. -/
def trimStartChars (l : List Char) : List Char :=
  l.dropWhile isRustWhitespace

/-- Model of Rust `str::trim`. -/
def trimChars (l : List Char) : List Char :=
  trimEndChars (trimStartChars l)

/-- Split a character list at every `'\n'`; the result always has one
more element than the number of `'\n'` occurrences (like
`str::split('\n')`). -/
def splitNL : List Char → List (List Char)
  | [] => [[]]
  | c :: rest =>
    match splitNL rest with
    | [] => if c = '\n' then [[], []] else [[c]]
    | l :: ls => if c = '\n' then [] :: l :: ls else (c :: l) :: ls

/-- Drop a single trailing `'\r'`, as Rust `str::lines` does for each
line that was terminated by `"\r\n"`. -/
def dropFinalCR (l : List Char) : List Char :=
  if l.getLast? = some '\r' then l.dropLast else l

/-- Model of Rust `str::lines`: split at `'\n'`, strip one `'\r'` from
each `'\n'`-terminated piece, and do not yield a final empty piece for a
trailing `'\n'`.  A final piece not terminated by `'\n'` keeps its
`'\r'`. -/
def rustLines (s : List Char) : List (List Char) :=
  if s = [] then []
  else
    let p := splitNL s
    if s.getLast? = some '\n' then p.dropLast.map dropFinalCR
    else p.dropLast.map dropFinalCR ++ [p.getLastD []]

/-- Model of `Vec::join("\n")` / `itertools` joining with a newline. -/
def joinNL : List (List Char) → List Char
  | [] => []
  | [l] => l
  | l :: ls => l ++ '\n' :: joinNL ls

/-! ## The canonicalizer (`src/core/src/markdown.rs`, `canonicalize_text`) -/

/-- The explicitly listed codepoint ranges removed by
`canonicalize_text` (the chained `contains` tests in the source). -/
def inBannedRanges (c : Char) : Bool :=
  let code := c.toNat
  (0x0600 ≤ code && code ≤ 0x0605) || code == 0x06DD || code == 0x070F ||
  (0x08A0 ≤ code && code ≤ 0x08B4) || (0x08E3 ≤ code && code ≤ 0x08FF) ||
  code == 0x180E || (0x200B ≤ code && code ≤ 0x200F) ||
  (0x202A ≤ code && code ≤ 0x202E) || (0x2060 ≤ code && code ≤ 0x206F) ||
  code == 0xFEFF || (0xFFF0 ≤ code && code ≤ 0xFFF8) ||
  code == 0x110BD || (0x1BCA0 ≤ code && code ≤ 0x1BCA4) ||
  (0x1D173 ≤ code && code ≤ 0x1D17A)

/-- The character filter inside `canonicalize_text`: keep tab/LF/CR,
remove the listed ranges, keep printable ASCII, and otherwise keep
exactly the non-control characters. -/
def keepChar (c : Char) : Bool :=
  let code := c.toNat
  if code == 9 || code == 10 || code == 13 then true
  else if inBannedRanges c then false
  else if 32 ≤ code && code ≤ 126 then true
  else !(isRustControl c)

/-- Model of `canonicalize_text`: normalize line endings and strip
trailing whitespace per line, remove control/format characters, then
ensure a single trailing newline when non-empty. -/
def canonicalize_text (text : List Char) : List Char :=
  let result := joinNL ((rustLines text).map trimEndChars)
  let result := result.filter keepChar
  if result ≠ [] ∧ result.getLast? ≠ some '\n' then result ++ ['\n']
  else result

/-- The Unicode general category `Cf` (format), transcribed from
`DerivedGeneralCategory.txt` of Unicode 15.1.  This is reference data
used to compare the spec sentence "removes every Cf character" with the
concrete ranges hard-coded in `canonicalize_text`. -/
def isUnicodeCf (c : Char) : Bool :=
  let n := c.toNat
  n == 0xAD || (0x600 ≤ n && n ≤ 0x605) || n == 0x61C || n == 0x6DD ||
  n == 0x70F || (0x890 ≤ n && n ≤ 0x891) || n == 0x8E2 || n == 0x180E ||
  (0x200B ≤ n && n ≤ 0x200F) || (0x202A ≤ n && n ≤ 0x202E) ||
  (0x2060 ≤ n && n ≤ 0x2064) || (0x2066 ≤ n && n ≤ 0x206F) ||
  n == 0xFEFF || (0xFFF9 ≤ n && n ≤ 0xFFFB) || n == 0x110BD ||
  n == 0x110CD || (0x13430 ≤ n && n ≤ 0x1343F) ||
  (0x1BCA0 ≤ n && n ≤ 0x1BCA3) || (0x1D173 ≤ n && n ≤ 0x1D17A) ||
  n == 0xE0001 || (0xE0020 ≤ n && n ≤ 0xE007F)

/-! ## Version registry (`src/core/src/version.rs`) -/

inductive VersionStatus
  | current
  | deprecated
  | obsolete
deriving DecidableEq, Repr

/-- The built-in protocol version registry. -/
def VERSION_REGISTRY : List (List Char × VersionStatus) :=
  [("1.0".data, .current), ("1.1".data, .current), ("2.0".data, .current)]

def DEFAULT_PROTOCOL_VERSION : List Char := "1.0".data

/-- Model of `get_version_status`: first registry entry with this name,
defaulting to `Obsolete`. -/
def get_version_status (version : List Char) : VersionStatus :=
  ((VERSION_REGISTRY.find? fun p => p.1 = version).map Prod.snd).getD .obsolete

/-- Model of `is_version_known`. -/
def is_version_known (version : List Char) : Bool :=
  VERSION_REGISTRY.any fun p => p.1 = version

/-! ## Error type (`src/core/src/error.rs`) -/

inductive SecurityError
  | pathTraversal (path root : List Char)
  | maxRecursionDepth (depth : Nat)
  | circularInclude (path : List Char)
deriving DecidableEq, Repr

/-- Model of `RhodiError`.  Payloads that are formatted messages in the
source are carried as character lists; the text of messages produced by
external crates (serde, io) is not modelled byte-exactly. -/
inductive RhodiError
  | io (msg : List Char)
  | format (msg : List Char)
  | serialization (msg : List Char)
  | crypto (msg : List Char)
  | security (e : SecurityError)
  | extraction (msg : List Char)
  | verification (msg : List Char)
  | resolution (msg : List Char)
deriving DecidableEq, Repr

/-- Display string of a `SecurityError` (the `thiserror` `#[error]`
formats, with `PathBuf` displayed as its text). -/
def SecurityError.display : SecurityError → List Char
  | .pathTraversal path root =>
    "Path traversal detected: ".data ++ path ++
      " is outside the allowed root ".data ++ root
  | .maxRecursionDepth depth =>
    "Maximum recursion depth (".data ++ (toString depth).data ++
      ") exceeded".data
  | .circularInclude path =>
    "Circular include detected: ".data ++ path

/-- Display string of a `RhodiError` (the `thiserror` `#[error]`
formats). -/
def RhodiError.display : RhodiError → List Char
  | .io msg => "IO error: ".data ++ msg
  | .format msg => "Format error: ".data ++ msg
  | .serialization msg => "Serialization error: ".data ++ msg
  | .crypto msg => "Crypto error: ".data ++ msg
  | .security e => "Security violation: ".data ++ e.display
  | .extraction msg => "Extraction error: ".data ++ msg
  | .verification msg => "Verification failed: ".data ++ msg
  | .resolution msg => "Resolution error: ".data ++ msg

/-! ## Bytes, hex, UTF-8 and the digest stand-in -/

/-- Lowercase hex digit for a value < 16. -/
def hexDigit (n : Nat) : Char :=
  if n < 10 then Char.ofNat (48 + n) else Char.ofNat (87 + n)

/-- Model of `hex::encode`: lowercase hex of a byte string. -/
def hexEncode (bs : List Nat) : List Char :=
  bs.flatMap fun b => [hexDigit (b / 16 % 16), hexDigit (b % 16)]

/-- Value of one hex digit (upper- or lowercase), if any. -/
def hexDigitVal (c : Char) : Option Nat :=
  let n := c.toNat
  if 48 ≤ n && n ≤ 57 then some (n - 48)
  else if 97 ≤ n && n ≤ 102 then some (n - 87)
  else if 65 ≤ n && n ≤ 70 then some (n - 55)
  else none

/-- Model of `hex::decode`: fails on odd length or a non-hex digit. -/
def hexDecode : List Char → Option (List Nat)
  | [] => some []
  | [_] => none
  | c₁ :: c₂ :: rest => do
    let h ← hexDigitVal c₁
    let l ← hexDigitVal c₂
    let tail ← hexDecode rest
    pure ((16 * h + l) :: tail)

/-- UTF-8 encoding of a single scalar value. -/
def utf8EncodeChar (c : Char) : List Nat :=
  let n := c.toNat
  if n < 0x80 then [n]
  else if n < 0x800 then [0xC0 + n / 64, 0x80 + n % 64]
  else if n < 0x10000 then
    [0xE0 + n / 4096, 0x80 + n / 64 % 64, 0x80 + n % 64]
  else
    [0xF0 + n / 262144, 0x80 + n / 4096 % 64, 0x80 + n / 64 % 64,
     0x80 + n % 64]

/-- Model of `str::as_bytes`: UTF-8 encoding. -/
def utf8Encode (s : List Char) : List Nat :=
  s.flatMap utf8EncodeChar

/-- Big-endian byte expansion of a natural number into `w` bytes. -/
def natToBytes : Nat → Nat → List Nat
  | 0, _ => []
  | w + 1, n => natToBytes w (n / 256) ++ [n % 256]

/-- Computable stand-in for the SHA-256 digest: a deterministic
function from byte strings to 32-byte strings.  Only determinism and
the output length of the real SHA-256 are relied upon; the actual
compression function of the `sha2` crate is not embedded. -/
def sha256 (m : List Nat) : List Nat :=
  natToBytes 32
    (m.foldl (fun a b => (a * 16777619 + b % 256 + 1) %
      (2 ^ 256)) 2166136261)

/-! ## Ed25519 model (`src/core/src/crypto.rs`, `ed25519-dalek`)

The signature scheme is modelled symbolically: a signing key is an
abstract seed, the matching verifying key is the seed itself, a
signature produced by `sign` records the seed and the message, and a
64-byte signature parsed from hex is a distinct constructor.
`verify_strict` succeeds exactly on a signature produced over the same
message by the signing key matching the verifying key (the standard
symbolic correctness/unforgeability abstraction). -/

inductive Signature
  | signed (sk : Nat) (msg : List Nat)
  | fromBytes (bytes : List Nat)
deriving DecidableEq, Repr

/-- Model of a verifying key: the abstract key identity. -/
structure VerifyingKey where
  key : Nat
deriving DecidableEq, Repr

structure KeyPair where
  sk : Nat
deriving DecidableEq, Repr

def KeyPair.verifying_key (kp : KeyPair) : VerifyingKey := ⟨kp.sk⟩

def KeyPair.sign (kp : KeyPair) (msg : List Nat) : Signature :=
  .signed kp.sk msg

/-- Model of `VerifyingKey::verify_strict`. -/
def VerifyingKey.verify_strict (pk : VerifyingKey) (msg : List Nat)
    (sig : Signature) : Bool :=
  sig == .signed pk.key msg

/-- Model of `VerifyingKey::from_bytes` on a 32-byte string.  The
on-curve validation of the real function is not modelled; the key
identity of parsed bytes is their base-256 value. -/
def VerifyingKey.from_bytes (bs : List Nat) : VerifyingKey :=
  ⟨bs.foldl (fun a b => a * 256 + b % 256) 0⟩

/-! ## Document model (`src/core/src/models.rs`)

`Uuid` values and `DateTime<Utc>` values are modelled by their
canonical text (the hashing code only ever uses `id.to_string()` and
`created_at.to_rfc3339()`); the RFC 3339 normalization performed by
`chrono` is modelled only for the trailing `Z` form. -/

inductive DocStatus
  | notes
  | draft
  | published
  | revoked
deriving DecidableEq, Repr

structure Policy where
  allow_include : Bool
  allow_quote : Bool
  require_attribution : Bool
deriving DecidableEq, Repr

def Policy.default : Policy :=
  { allow_include := true, allow_quote := true,
    require_attribution := false }

structure AgentMetadata where
  model : List Char
  prompt_hash : Option (List Char)
deriving DecidableEq, Repr

inductive TraceMethod
  | automatic
  | manual
  | agent
deriving DecidableEq, Repr

/-- Model of `TraceBlock`.  `confidence` is an `f64` in the source; it
is carried as its raw scalar text because no core operation ever
computes with it. -/
structure TraceBlock where
  source : List Char
  hash : Option (List Char)
  selector : Option (List Char)
  expected : List Char
  method : TraceMethod
  extractor : Option (List Char)
  timestamp : Option (List Char)
  context : Option (List Char)
  confidence : Option (List Char)
  agent_metadata : Option AgentMetadata
deriving DecidableEq, Repr

/-- Model of `FrontMatter`.  `id` is the UUID canonical text,
`created_at` / `modified_at` are RFC 3339 texts, hashes are 32-byte
strings, and `extra` is a sorted association list (the `BTreeMap`). -/
structure FrontMatter where
  id : List Char
  version_hash : Option (List Nat)
  title : List Char
  author : Option (List Char)
  public_key : Option (List Char)
  signature : Option Signature
  created_at : List Char
  modified_at : Option (List Char)
  doc_status : DocStatus
  policy : Policy
  protocol_version : List Char
  doc_version : Nat
  prev_version_hash : Option (List Nat)
  extra : Option (List (List Char × List Char))
deriving DecidableEq, Repr

structure TracedDocument where
  frontmatter : FrontMatter
  body : List Char
deriving DecidableEq, Repr

/-- Strict lexicographic byte order on strings, the `Ord` used by
`BTreeMap<&str, _>` (codepoint order coincides with UTF-8 byte
order). -/
def strLt : List Char → List Char → Bool
  | [], [] => false
  | [], _ :: _ => true
  | _ :: _, [] => false
  | a :: as, b :: bs =>
    if a.toNat < b.toNat then true
    else if b.toNat < a.toNat then false
    else strLt as bs

/-- Insertion into a key-sorted association list with overwrite,
modelling `BTreeMap::insert` (an existing key keeps its position and
takes the new value: last write wins). -/
def mapInsert (key val : List Char) :
    List (List Char × List Char) → List (List Char × List Char)
  | [] => [(key, val)]
  | (k, v) :: rest =>
    if strLt key k then (key, val) :: (k, v) :: rest
    else if key = k then (key, val) :: rest
    else (k, v) :: mapInsert key val rest

/-- JSON string escaping as produced by `serde_json` for the characters
that can occur here: quote, backslash, and C0 controls. -/
def jsonEscapeChar (c : Char) : List Char :=
  if c = '"' then ['\\', '"']
  else if c = '\\' then ['\\', '\\']
  else if c = '\x08' then ['\\', 'b']
  else if c = '\x09' then ['\\', 't']
  else if c = '\x0A' then ['\\', 'n']
  else if c = '\x0C' then ['\\', 'f']
  else if c = '\x0D' then ['\\', 'r']
  else if c.toNat < 0x20 then
    ['\\', 'u', '0', '0', hexDigit (c.toNat / 16), hexDigit (c.toNat % 16)]
  else [c]

def jsonQuote (s : List Char) : List Char :=
  '"' :: s.flatMap jsonEscapeChar ++ ['"']

/-- Model of `serde_json::to_string` on a `BTreeMap<&str, String>`
(already key-sorted): a compact JSON object. -/
def jsonObject (m : List (List Char × List Char)) : List Char :=
  Char.ofNat 123 ::
    joinWith (m.map fun p => jsonQuote p.1 ++ ':' :: jsonQuote p.2) ++
    [Char.ofNat 125]
where
  /-- Comma-joined concatenation. -/
  joinWith : List (List Char) → List Char
    | [] => []
    | [l] => l
    | l :: ls => l ++ ',' :: joinWith ls

/-- Normalization applied by `chrono` when a parsed UTC timestamp is
re-emitted with `to_rfc3339`: a trailing `Z` becomes `+00:00`.  Other
normalizations of `chrono` are not modelled. -/
def normalizeRfc3339 (s : List Char) : List Char :=
  if s.getLast? = some 'Z' then s.dropLast ++ "+00:00".data else s

namespace TracedDocument

/-- The sorted string map over which `compute_version_hash` serializes
the frontmatter: the insertion sequence from the source, with `extra`
flattened in last (overwriting reserved keys on collision, as
`BTreeMap::insert` does). -/
def frontmatterMap (d : TracedDocument) : List (List Char × List Char) :=
  let fm := d.frontmatter
  let m : List (List Char × List Char) := []
  let m := mapInsert "id".data fm.id m
  let m := mapInsert "title".data fm.title m
  let m := match fm.author with
    | some author => mapInsert "author".data author m
    | none => m
  let m := match fm.public_key with
    | some pk => mapInsert "public_key".data pk m
    | none => m
  let m := mapInsert "policy_allow_include".data
    (if fm.policy.allow_include then "true".data else "false".data) m
  let m := mapInsert "policy_allow_quote".data
    (if fm.policy.allow_quote then "true".data else "false".data) m
  let m := mapInsert "policy_require_attribution".data
    (if fm.policy.require_attribution then "true".data else "false".data) m
  let m := mapInsert "created_at".data fm.created_at m
  let m := match fm.modified_at with
    | some t => mapInsert "modified_at".data t m
    | none => m
  let m := mapInsert "doc_status".data
    (match fm.doc_status with
     | .notes => "notes".data
     | .draft => "draft".data
     | .published => "published".data
     | .revoked => "revoked".data) m
  let m := mapInsert "protocol_version".data fm.protocol_version m
  let m := mapInsert "doc_version".data (toString fm.doc_version).data m
  let m := match fm.prev_version_hash with
    | some h => mapInsert "prev_version_hash".data (hexEncode h) m
    | none => m
  match fm.extra with
  | some extra => extra.foldl (fun m p => mapInsert p.1 p.2 m) m
  | none => m

/-- Model of `TracedDocument::compute_version_hash`: SHA-256 over the
UTF-8 bytes of the canonicalized body followed by the JSON of the
sorted frontmatter projection (`version_hash` and `signature`
excluded). -/
def compute_version_hash (d : TracedDocument) : List Nat :=
  sha256 (utf8Encode (canonicalize_text d.body) ++
    utf8Encode (jsonObject d.frontmatterMap))

/-- Model of `TracedDocument::seal`.  The ambient clock is passed as
the explicit `now` argument (the RFC 3339 text `Utc::now()` would
render to).  The source mutates the frontmatter field by field in
sequence; since no mutated field is read by a later step except
`version_hash` (read into `prev_version_hash` before being overwritten
at the end), the sequence is written as one record update. -/
def seal' (d : TracedDocument) (keypair : KeyPair) (now : List Char) :
    TracedDocument :=
  let fm := d.frontmatter
  let fm' : FrontMatter :=
    { fm with
        doc_status :=
          if fm.doc_status ≠ .revoked then .published else fm.doc_status
        modified_at := some now
        prev_version_hash :=
          match fm.version_hash with
          | some currentHash => some currentHash
          | none => fm.prev_version_hash
        doc_version := (fm.doc_version + 1) % 2 ^ 32 }
  let hash := TracedDocument.compute_version_hash ⟨fm', d.body⟩
  let signature := keypair.sign hash
  ⟨{ fm' with version_hash := some hash, signature := some signature },
    d.body⟩

/-- Model of `TracedDocument::verify`. -/
def verify (d : TracedDocument) (public_key : VerifyingKey) :
    Except RhodiError Unit := do
  let version := d.frontmatter.protocol_version
  if !is_version_known version then
    throw (.verification ("Unknown protocol version: ".data ++ version ++
      ". Document may be from a future or obsolete version.".data))
  if get_version_status version = .obsolete then
    throw (.verification ("Protocol version ".data ++ version ++
      " is obsolete and no longer supported.".data))
  let stored_hash ← match d.frontmatter.version_hash with
    | some h => pure h
    | none => throw (.verification
        "Document is not sealed (missing version_hash)".data)
  let signature ← match d.frontmatter.signature with
    | some s => pure s
    | none => throw (.verification
        "Document is not signed (missing signature)".data)
  let computed_hash := d.compute_version_hash
  if computed_hash ≠ stored_hash then
    throw (.verification
      "Integrity check failed: version_hash mismatch".data)
  -- the source appends the display of the dalek error; that external
  -- text is abstracted to a fixed suffix
  if !public_key.verify_strict computed_hash signature then
    throw (.crypto "Authenticity check failed: signature error".data)
  pure ()

end TracedDocument


/-! ## String search and split (`str::splitn`, `str::find`) -/

/-- Leftmost occurrence of `pat` in `s`, returning the text before the
occurrence and the text after it. -/
def findSub (pat : List Char) : List Char → Option (List Char × List Char)
  | [] => if pat = [] then some ([], []) else none
  | c :: rest =>
    if pat.isPrefixOf (c :: rest) then some ([], (c :: rest).drop pat.length)
    else (findSub pat rest).map fun p => (c :: p.1, p.2)

/-- Model of Rust `s.splitn(3, pat).collect::<Vec<_>>()`: split at the
first two occurrences of `pat`, leaving the remainder unsplit. -/
def splitn3 (pat s : List Char) : List (List Char) :=
  match findSub pat s with
  | none => [s]
  | some (a, rest) =>
    match findSub pat rest with
    | none => [a, rest]
    | some (b, rest2) => [a, b, rest2]

/-- Number of leftmost non-overlapping occurrences of a non-empty
pattern. -/
def countOccurAux (pat : List Char) : Nat → List Char → Nat
  | 0, _ => 0
  | fuel + 1, s =>
    match s with
    | [] => 0
    | c :: rest =>
      if pat.isPrefixOf (c :: rest) ∧ pat ≠ [] then
        countOccurAux pat fuel ((c :: rest).drop pat.length) + 1
      else countOccurAux pat fuel rest

def countOccur (pat s : List Char) : Nat :=
  countOccurAux pat s.length s

/-! ## The flat-scalar YAML subset (model of `serde_norway`)

The documents this repository deserializes are flat `key: value`
mappings of plain or double-quoted scalars.  `serde_norway` itself is an
external crate; it is modelled here on exactly that subset: one
`key: value` pair per line, blank lines skipped, `null` denoting an
absent optional value, nested block structure unsupported (a parse
failure, which the concrete inputs used in this development never
exercise). -/

/-- Split a line at its first `':'`. -/
def splitFirstColon : List Char → Option (List Char × List Char)
  | [] => none
  | c :: rest =>
    if c = ':' then some ([], rest)
    else (splitFirstColon rest).map fun p => (c :: p.1, p.2)

/-- Strip one layer of surrounding double quotes. -/
def unquote (s : List Char) : List Char :=
  match s with
  | '"' :: rest =>
    if rest ≠ [] ∧ rest.getLast? = some '"' then rest.dropLast else s
  | _ => s

/-- Parse the lines of a flat YAML mapping into key/value pairs. -/
def parseScalarLines : List (List Char) → Option (List (List Char × List Char))
  | [] => some []
  | line :: rest =>
    if trimChars line = [] then parseScalarLines rest
    else if (line.head?.map isRustWhitespace).getD false then none
    else
      match splitFirstColon line with
      | none => none
      | some (k, v) => do
        let tail ← parseScalarLines rest
        pure ((trimChars k, unquote (trimChars v)) :: tail)

def parseScalarMap (s : List Char) : Option (List (List Char × List Char)) :=
  parseScalarLines (rustLines s)

/-- First value stored under a key. -/
def mapLookup (m : List (List Char × List Char)) (k : List Char) :
    Option (List Char) :=
  (m.find? fun p => p.1 = k).map Prod.snd

/-- An optional scalar field: missing or `null` is `none`. -/
def optScalar (m : List (List Char × List Char)) (k : List Char) :
    Option (List Char) :=
  match mapLookup m k with
  | none => none
  | some v => if v = "null".data then none else some v

def isDigitChar (c : Char) : Bool := 48 ≤ c.toNat && c.toNat ≤ 57

def isHexDigitChar (c : Char) : Bool := (hexDigitVal c).isSome

/-- Format-level validity of the canonical hyphenated UUID text, the
grammar accepted by `Uuid::parse_str` for its canonical form. -/
def isUuidText (s : List Char) : Bool :=
  s.length == 36 &&
    (List.range 36).all fun i =>
      if i == 8 || i == 13 || i == 18 || i == 23 then s.getD i ' ' == '-'
      else isHexDigitChar (s.getD i ' ')

/-- Offset part of an RFC 3339 timestamp: `Z` or `±HH:MM`. -/
def rfcOffset : List Char → Bool
  | ['Z'] => true
  | [sign, a, b, ':', c, d] =>
    (sign = '+' || sign = '-') && [a, b, c, d].all isDigitChar
  | _ => false

/-- Tail of an RFC 3339 timestamp after the seconds: optional fraction,
then the offset. -/
def rfcSuffix (s : List Char) : Bool :=
  match s with
  | '.' :: rest =>
    rest.takeWhile isDigitChar ≠ [] &&
      rfcOffset (rest.dropWhile isDigitChar)
  | rest => rfcOffset rest

/-- Format-level validity of an RFC 3339 timestamp, the grammar the
`chrono` deserializer accepts for `DateTime<Utc>`.  Calendar range
checks (month ≤ 12 and so on) are not modelled. -/
def isRfc3339 (s : List Char) : Bool :=
  match s with
  | y1 :: y2 :: y3 :: y4 :: '-' :: m1 :: m2 :: '-' :: d1 :: d2 :: 'T' ::
      h1 :: h2 :: ':' :: mi1 :: mi2 :: ':' :: s1 :: s2 :: rest =>
    [y1, y2, y3, y4, m1, m2, d1, d2, h1, h2, mi1, mi2, s1, s2].all
      isDigitChar && rfcSuffix rest
  | _ => false

/-- ASCII lowercasing of one character (the inputs lowercased by this
code are ASCII identifiers and hex strings). -/
def toLowerChar (c : Char) : Char :=
  if 65 ≤ c.toNat ∧ c.toNat ≤ 90 then Char.ofNat (c.toNat + 32) else c

def asciiLower (s : List Char) : List Char := s.map toLowerChar

def parseDecimal (s : List Char) : Option Nat :=
  if s ≠ [] ∧ s.all isDigitChar then
    some (s.foldl (fun a c => a * 10 + (c.toNat - 48)) 0)
  else none

def parseDocStatus (s : List Char) : Option DocStatus :=
  if s = "notes".data then some .notes
  else if s = "draft".data then some .draft
  else if s = "published".data then some .published
  else if s = "revoked".data then some .revoked
  else none

def parseTraceMethod (s : List Char) : Option TraceMethod :=
  if s = "automatic".data then some .automatic
  else if s = "manual".data then some .manual
  else if s = "agent".data then some .agent
  else none

/-- An optional 32-byte hex field (`deserialize_hex`). -/
def parseOptHash (m : List (List Char × List Char)) (k : List Char) :
    Option (Option (List Nat)) :=
  match optScalar m k with
  | none => some none
  | some hx =>
    match hexDecode hx with
    | none => none
    | some bs => if bs.length = 32 then some (some bs) else none

/-- The optional 64-byte hex signature field (`deserialize_signature`). -/
def parseOptSignature (m : List (List Char × List Char)) :
    Option (Option Signature) :=
  match optScalar m "signature".data with
  | none => some none
  | some hx =>
    match hexDecode hx with
    | none => none
    | some bs =>
      if bs.length = 64 then some (some (Signature.fromBytes bs)) else none

/-- An optional timestamp field. -/
def parseOptTime (m : List (List Char × List Char)) (k : List Char) :
    Option (Option (List Char)) :=
  match optScalar m k with
  | none => some none
  | some t => if isRfc3339 t then some (some (normalizeRfc3339 t)) else none

/-- Model of the `serde` deserialization of `FrontMatter` over the
flat-scalar YAML subset.  Required fields: `id`, `title`, `created_at`,
`doc_status` (all other fields are `Option` or carry a
`#[serde(default)]`); unknown keys are ignored, as `serde` does without
`deny_unknown_fields`.  A present `policy` or `extra` key is a nested
mapping, which the flat subset does not model. -/
def parseFrontMatter (s : List Char) : Option FrontMatter := do
  let m ← parseScalarMap s
  if (mapLookup m "policy".data).isSome then failure
  if (mapLookup m "extra".data).isSome then failure
  let id ← mapLookup m "id".data
  if !isUuidText id then failure
  let title ← mapLookup m "title".data
  let created ← mapLookup m "created_at".data
  if !isRfc3339 created then failure
  let statusStr ← mapLookup m "doc_status".data
  let status ← parseDocStatus statusStr
  let vh ← parseOptHash m "version_hash".data
  let pvh ← parseOptHash m "prev_version_hash".data
  let sig ← parseOptSignature m
  let modified ← parseOptTime m "modified_at".data
  let docVersion ← match mapLookup m "doc_version".data with
    | none => pure 0
    | some ds => do
      let n ← parseDecimal ds
      if n < 2 ^ 32 then pure n else failure
  pure
    { id := asciiLower id
      version_hash := vh
      title := title
      author := optScalar m "author".data
      public_key := optScalar m "public_key".data
      signature := sig
      created_at := normalizeRfc3339 created
      modified_at := modified
      doc_status := status
      policy := Policy.default
      protocol_version :=
        (mapLookup m "protocol_version".data).getD DEFAULT_PROTOCOL_VERSION
      doc_version := docVersion
      prev_version_hash := pvh
      extra := none }

/-! ## TMD parsing (`src/core/src/markdown.rs`) -/

/-- Model of `parse_tmd`: split on the first two occurrences of `---`,
parse the middle part as frontmatter, trim the rest as the body. -/
def parse_tmd (content : List Char) : Except RhodiError TracedDocument :=
  let parts := splitn3 "---".data content
  if parts.length < 3 then
    .error (.format "Invalid TMD format: Missing frontmatter delimiters".data)
  else
    match parseFrontMatter (parts.getD 1 []) with
    | none =>
      .error (.format
        "Failed to parse frontmatter: serde message not modelled".data)
    | some fm => .ok { frontmatter := fm, body := trimChars (parts.getD 2 []) }

/-- Model of the `serde` deserialization of `TraceBlock` over the
flat-scalar YAML subset.  Required: `source`, `expected`; `method`
defaults to `automatic`.  A present `agent_metadata` key is nested and
not modelled. -/
def parseTraceBlockFields (m : List (List Char × List Char)) :
    Option TraceBlock := do
  if (mapLookup m "agent_metadata".data).isSome then failure
  let source ← mapLookup m "source".data
  let expected ← mapLookup m "expected".data
  let method ← match optScalar m "method".data with
    | none => pure TraceMethod.automatic
    | some ms => parseTraceMethod ms
  let timestamp ← parseOptTime m "timestamp".data
  pure
    { source := source
      hash := optScalar m "hash".data
      selector := optScalar m "selector".data
      expected := expected
      method := method
      extractor := optScalar m "extractor".data
      timestamp := timestamp
      context := optScalar m "context".data
      confidence := optScalar m "confidence".data
      agent_metadata := none }

/-- Model of `parse_trace_block`: fences checked, the inner lines
re-joined and parsed as a `TraceBlock` mapping. -/
def parse_trace_block (block : List Char) : Except RhodiError TraceBlock :=
  let lines := rustLines block
  if lines.length < 2 then
    .error (.format "Invalid trace block: too short".data)
  else if !("```trace".data.isPrefixOf (trimChars (lines.headD []))) then
    .error (.format "Invalid trace block: missing opening fence".data)
  else if !("```".data.isPrefixOf (trimChars (lines.getLastD []))) then
    .error (.format "Invalid trace block: missing closing fence".data)
  else
    let yaml_content := joinNL ((lines.drop 1).dropLast)
    match parseScalarMap yaml_content >>= parseTraceBlockFields with
    | none =>
      .error (.format
        "Failed to parse trace metadata: serde message not modelled".data)
    | some t => .ok t

/-- The three body section kinds (`Section` in `markdown.rs`); the
`Include` variant is named `includeSection` because `include` is a Lean
keyword. -/
inductive Section
  | paragraph (text : List Char)
  | trace (t : TraceBlock)
  | includeSection (text : List Char)
deriving DecidableEq, Repr

/-- The line scanner inside `parse_tmd_sections`: state is the
remaining lines, the `in_block` flag, the `block_type` tag and the
accumulated `current` text. -/
def sectionsLoop : List (List Char) → Bool → List Char → List Char →
    List Section
  | [], _, _, current =>
    if trimChars current ≠ [] then [.paragraph current] else []
  | line :: rest, inBlock, blockType, current =>
    let s := trimStartChars line
    if inBlock then
      let current := current ++ line ++ ['\n']
      if "```".data.isPrefixOf s then
        (if blockType = "trace".data then
          match parse_trace_block current with
          | .ok t => [Section.trace t]
          | .error _ => [Section.paragraph current]
        else if blockType = "include".data then
          [Section.includeSection current]
        else [Section.paragraph current]) ++
          sectionsLoop rest false [] []
      else sectionsLoop rest true blockType current
    else if "```trace".data.isPrefixOf s then
      (if trimChars current ≠ [] then [Section.paragraph current] else []) ++
        sectionsLoop rest true "trace".data (line ++ ['\n'])
    else if "```include".data.isPrefixOf s then
      (if trimChars current ≠ [] then [Section.paragraph current] else []) ++
        sectionsLoop rest true "include".data (line ++ ['\n'])
    else sectionsLoop rest false blockType (current ++ line ++ ['\n'])

/-- Model of `parse_tmd_sections`. -/
def parse_tmd_sections (body : List Char) : List Section :=
  sectionsLoop (rustLines body) false [] []

/-! ## Remaining document operations (`src/core/src/models.rs`) -/

/-- Model of `TracedDocument::new`.  `FrontMatter::default()` draws a
fresh UUIDv7 and the current time; both are passed explicitly. -/
def TracedDocument.new (id now : List Char) (title content : List Char) :
    TracedDocument :=
  { frontmatter :=
      { id := id
        version_hash := none
        title := title
        author := none
        public_key := none
        signature := none
        created_at := now
        modified_at := none
        doc_status := .notes
        policy := Policy.default
        protocol_version := DEFAULT_PROTOCOL_VERSION
        doc_version := 0
        prev_version_hash := none
        extra := none }
    body := trimChars content }

def TracedDocument.update_modified_time (d : TracedDocument)
    (now : List Char) : TracedDocument :=
  { d with frontmatter := { d.frontmatter with modified_at := some now } }

/-- The pair `(exists, read)` view of the file system plus path
canonicalization, passed to the operations that perform direct file
system access. -/
structure FsModel where
  pathExists : List Char → Bool
  canonicalizePath : List Char → Except RhodiError (List Char)
  readFile : List Char → Except RhodiError (List Nat)

/-- Model of `Path::join` restricted to string paths: an absolute right
operand replaces the base. -/
def joinPath (base sub : List Char) : List Char :=
  if sub.head? = some '/' then sub else base ++ '/' :: sub

/-- Model of `TraceBlock::update_hash`: read `base_path/source` and
store its digest as `sha256:<hex>`. -/
def TraceBlock.update_hash (fs : FsModel) (base_path : List Char)
    (t : TraceBlock) : Except RhodiError TraceBlock := do
  let path := joinPath base_path t.source
  if !fs.pathExists path then
    throw (.resolution ("Source file not found: ".data ++
      '"' :: path ++ ['"']))
  let content ← fs.readFile path
  pure { t with hash := some ("sha256:".data ++ hexEncode (sha256 content)) }

def yamlScalarOrNull : Option (List Char) → List Char
  | none => "null".data
  | some v => v

def yamlLine (k v : List Char) : List Char := k ++ ": ".data ++ v ++ ['\n']

/-- Model of `serde_norway::to_string` on a `TraceBlock`: every field in
declaration order, absent options as `null`.  The emitter quoting rules
for scalars that need escaping are not modelled. -/
def dumpTraceYaml (t : TraceBlock) : List Char :=
  yamlLine "source".data t.source ++
  yamlLine "hash".data (yamlScalarOrNull t.hash) ++
  yamlLine "selector".data (yamlScalarOrNull t.selector) ++
  yamlLine "expected".data t.expected ++
  yamlLine "method".data
    (match t.method with
     | .automatic => "automatic".data
     | .manual => "manual".data
     | .agent => "agent".data) ++
  yamlLine "extractor".data (yamlScalarOrNull t.extractor) ++
  yamlLine "timestamp".data (yamlScalarOrNull t.timestamp) ++
  yamlLine "context".data (yamlScalarOrNull t.context) ++
  yamlLine "confidence".data (yamlScalarOrNull t.confidence) ++
  (match t.agent_metadata with
   | none => yamlLine "agent_metadata".data "null".data
   | some md =>
     "agent_metadata:\n".data ++
       yamlLine "  model".data md.model ++
       yamlLine "  prompt_hash".data (yamlScalarOrNull md.prompt_hash))

/-- The body rebuild loop of `update_all_traces`: paragraphs and
includes verbatim, traces re-hashed and re-emitted between fences. -/
def updateTracesBody (fs : FsModel) (base_path : List Char)
    (acc : List Char) (sec : Section) : Except RhodiError (List Char) :=
  match sec with
  | .paragraph p => pure (acc ++ p)
  | .trace t => do
    let t' ← t.update_hash fs base_path
    pure (acc ++ "```trace\n".data ++ dumpTraceYaml t' ++ "```\n".data)
  | .includeSection i => pure (acc ++ i)

/-- Model of `TracedDocument::update_all_traces`. -/
def TracedDocument.update_all_traces (fs : FsModel) (base_path : List Char)
    (d : TracedDocument) : Except RhodiError TracedDocument := do
  let sections := parse_tmd_sections d.body
  let new_body ← sections.foldlM (updateTracesBody fs base_path) []
  pure { d with body := new_body }

/-! ## Safe resolver (`src/core/src/resolver.rs`) -/

inductive PathComp
  | normal (seg : List Char)
  | parentDir
  | curDir
deriving DecidableEq, Repr

/-- Split a path string at every `'/'`. -/
def splitSlash : List Char → List (List Char)
  | [] => [[]]
  | c :: rest =>
    match splitSlash rest with
    | [] => if c = '/' then [[], []] else [[c]]
    | l :: ls => if c = '/' then [] :: l :: ls else (c :: l) :: ls

/-- Model of `Path::components` on a Unix path string: empty segments
vanish, `..` is `ParentDir`, `.` is `CurDir` (the root-dir component of
an absolute path is handled separately and both it and `CurDir` fall
into the wildcard arm of the depth loop). -/
def pathComponents (s : List Char) : List PathComp :=
  ((splitSlash s).filter (· ≠ [])).map fun seg =>
    if seg = "..".data then .parentDir
    else if seg = ".".data then .curDir
    else .normal seg

def isAbsolutePath (s : List Char) : Bool := s.head? = some '/'

/-- The depth loop of `FileResolver::validate_path`: `true` when the
running depth counter never drops below zero. -/
def validateComponents : List PathComp → Int → Bool
  | [], _ => true
  | .normal _ :: rest, d => validateComponents rest (d + 1)
  | .parentDir :: rest, d =>
    if d - 1 < 0 then false else validateComponents rest (d - 1)
  | .curDir :: rest, d => validateComponents rest d

/-- Model of `Path::starts_with`: component-wise prefix. -/
def pathStarts (p root : List Char) : Bool :=
  ((splitSlash root).filter (· ≠ [])).isPrefixOf
    ((splitSlash p).filter (· ≠ []))

/-- `FileResolver`: the canonical root captured at construction. -/
structure FileResolver where
  root : List Char

/-- Model of `FileResolver::validate_path`. -/
def FileResolver.validate_path (r : FileResolver) (fs : FsModel)
    (source : List Char) : Except RhodiError (List Char) :=
  if isAbsolutePath source then
    .error (.security (.pathTraversal source r.root))
  else if !validateComponents (pathComponents source) 0 then
    .error (.security (.pathTraversal source r.root))
  else
    let full_path := joinPath r.root source
    if fs.pathExists full_path then
      match fs.canonicalizePath full_path with
      | .error e => .error e
      | .ok canonical =>
        if !pathStarts canonical r.root then
          .error (.security (.pathTraversal canonical r.root))
        else .ok canonical
    else .ok full_path

/-- Model of `FileResolver::resolve_bytes`. -/
def FileResolver.resolve_bytes (r : FileResolver) (fs : FsModel)
    (source : List Char) : Except RhodiError (List Nat) := do
  let safe_path ← r.validate_path fs source
  fs.readFile safe_path

/-- Whether a byte is a UTF-8 continuation byte. -/
def isContByte (b : Nat) : Bool := 0x80 ≤ b && b < 0xC0

/-- Model of `String::from_utf8`: strict UTF-8 decoding, rejecting
overlong forms, surrogates and out-of-range scalars. -/
def utf8Decode : List Nat → Option (List Char)
  | [] => some []
  | b :: rest =>
    if b < 0x80 then (utf8Decode rest).map (Char.ofNat b :: ·)
    else if 0xC2 ≤ b && b < 0xE0 then
      match rest with
      | b2 :: rest2 =>
        if isContByte b2 then
          (utf8Decode rest2).map
            (Char.ofNat ((b - 0xC0) * 64 + (b2 - 0x80)) :: ·)
        else none
      | _ => none
    else if 0xE0 ≤ b && b < 0xF0 then
      match rest with
      | b2 :: b3 :: rest3 =>
        if isContByte b2 && isContByte b3 then
          let n := (b - 0xE0) * 4096 + (b2 - 0x80) * 64 + (b3 - 0x80)
          if 0x800 ≤ n && !(0xD800 ≤ n && n ≤ 0xDFFF) then
            (utf8Decode rest3).map (Char.ofNat n :: ·)
          else none
        else none
      | _ => none
    else if 0xF0 ≤ b && b < 0xF5 then
      match rest with
      | b2 :: b3 :: b4 :: rest4 =>
        if isContByte b2 && isContByte b3 && isContByte b4 then
          let n := (b - 0xF0) * 262144 + (b2 - 0x80) * 4096 +
            (b3 - 0x80) * 64 + (b4 - 0x80)
          if 0x10000 ≤ n && n < 0x110000 then
            (utf8Decode rest4).map (Char.ofNat n :: ·)
          else none
        else none
      | _ => none
    else none

/-- Model of `FileResolver::resolve_document`. -/
def FileResolver.resolve_document (r : FileResolver) (fs : FsModel)
    (source : List Char) : Except RhodiError TracedDocument := do
  let bytes ← r.resolve_bytes fs source
  match utf8Decode bytes with
  | none => throw (.format "Invalid UTF-8 in document".data)
  | some content => parse_tmd content

/-! ## Extraction registry (`src/core/src/extraction.rs`)

The regex and jsonpath engines are external crates; the registry is
modelled over two engine parameters, and the dispatch by case-folded
method name is the code under test. -/

structure Extractors where
  regexExtract : List Nat → List Char → Except RhodiError (List Char)
  jsonpathExtract : List Nat → List Char → Except RhodiError (List Char)

/-- Model of `get_extractor` combined with `Extractor::extract`:
dispatch on the lowercased method name. -/
def runExtractor (ext : Extractors) (method : List Char)
    (content : List Nat) (selector : List Char) :
    Except RhodiError (List Char) :=
  if asciiLower method = "regex".data then ext.regexExtract content selector
  else if asciiLower method = "jsonpath".data then
    ext.jsonpathExtract content selector
  else .error (.extraction ("Unknown extraction method: ".data ++ method))

/-! ## Verification compiler (`src/core/src/compiler.rs`) -/

def MAX_INCLUDE_DEPTH : Nat := 5

structure CompilationReport where
  errors : List RhodiError
  warnings : List (List Char)
deriving DecidableEq, Repr

/-- The abstract `SourceResolver` trait bound `R` of `Compiler<R>`. -/
structure Resolver where
  resolve_bytes : List Char → Except RhodiError (List Nat)
  resolve_document : List Char → Except RhodiError TracedDocument

/-- Model of `Compiler::verify_trace`. -/
def verify_trace (res : Resolver) (ext : Extractors)
    (trace : TraceBlock) : Except RhodiError Unit := do
  let content ← res.resolve_bytes trace.source
  match trace.hash with
  | some expected_hash =>
    let computed_hash := "sha256:".data ++ hexEncode (sha256 content)
    if computed_hash ≠ expected_hash then
      throw (.verification ("Hash mismatch for ".data ++ trace.source ++
        ". Expected ".data ++ expected_hash ++ ", got ".data ++
        computed_hash))
    else pure ()
  | none => pure ()
  match trace.selector with
  | some selector =>
    let method := trace.extractor.getD "regex".data
    let extracted ← runExtractor ext method content selector
    -- the source wraps the two values in single quotes; the quote
    -- characters are omitted from the modelled message
    if trimChars extracted ≠ trimChars trace.expected then
      throw (.verification ("Truth verification failed for ".data ++
        trace.source ++ ". Expected ".data ++ trace.expected ++
        ", got ".data ++ extracted))
    else pure ()
  | none => pure ()

/-- The signature-check prologue of `verify_recursive` (step 1).  A
public key that is valid hex but not 32 bytes long propagates a hard
`Crypto` error through the `?` operator in the source; hex failure and
verification failure are collected.  The parse failure of
`VerifyingKey::from_bytes` on a non-point is not modelled
(`VerifyingKey.from_bytes` is total here), so the collected
`Invalid public key format` arm of the source is unreachable in the
model. -/
def signatureCheck (doc : TracedDocument) :
    Except RhodiError (List RhodiError × List (List Char)) :=
  if doc.frontmatter.doc_status = .published ∨
      doc.frontmatter.doc_status = .revoked then
    match doc.frontmatter.public_key with
    | some pk_hex =>
      match hexDecode pk_hex with
      | some pk_bytes =>
        if pk_bytes.length = 32 then
          match doc.verify (VerifyingKey.from_bytes pk_bytes) with
          | .error e => .ok ([e], [])
          | .ok _ => .ok ([], [])
        else .error (.crypto "Invalid key len".data)
      | none => .ok ([.crypto "Public key is not valid hex".data], [])
    | none =>
      .ok ([],
        ["No public key found in metadata, skipping signature verification".data])
  else .ok ([], [])

/-- Parsing of an include block inside `verify_recursive`: strip the
fences and read `{path, integrity}` from the YAML. -/
def trimStartMatchesAux (pat : List Char) : Nat → List Char → List Char
  | 0, s => s
  | fuel + 1, s =>
    if pat ≠ [] ∧ pat.isPrefixOf s then
      trimStartMatchesAux pat fuel (s.drop pat.length)
    else s

/-- Model of `str::trim_start_matches`: strip every successive prefix
occurrence of the pattern (each strip shortens the text, so
`s.length` rounds suffice). -/
def trimStartMatches (pat s : List Char) : List Char :=
  trimStartMatchesAux pat s.length s

def trimEndMatchesAux (pat : List Char) : Nat → List Char → List Char
  | 0, s => s
  | fuel + 1, s =>
    if pat ≠ [] ∧ pat.isSuffixOf s then
      trimEndMatchesAux pat fuel (s.take (s.length - pat.length))
    else s

/-- Model of `str::trim_end_matches`. -/
def trimEndMatches (pat s : List Char) : List Char :=
  trimEndMatchesAux pat s.length s

def parseIncludeBlock (content : List Char) :
    Option (List Char × Option (List Char)) := do
  let yaml_content := trimChars
    (trimEndMatches "```".data
      (trimStartMatches "```include".data (trimChars content)))
  let m ← parseScalarMap yaml_content
  let path ← mapLookup m "path".data
  if path = "null".data then failure
  pure (path, optScalar m "integrity".data)

/-- The per-section step of `verify_recursive` (the body of its `for`
loop).  `recurse` is the recursive call at `depth + 1`; the
`seen.insert(path)` before it and the `seen.remove(path)` after it (on
both the success and the resolver-failure paths) net to passing
`path :: seen` downward and continuing with the original `seen`. -/
def walkSection (res : Resolver) (ext : Extractors)
    (recurse : TracedDocument → List (List Char) →
      Except RhodiError CompilationReport)
    (status : DocStatus) (seen : List (List Char))
    (report : CompilationReport) (sec : Section) :
    Except RhodiError CompilationReport :=
  match sec with
  | .paragraph _ => .ok report
  | .trace trace =>
    match verify_trace res ext trace with
    | .error e =>
      if status = .published then
        .ok { report with errors := report.errors ++ [e] }
      else
        .ok { report with warnings :=
          report.warnings ++ ["Trace warning: ".data ++ e.display] }
    | .ok _ => .ok report
  | .includeSection content =>
    match parseIncludeBlock content with
    | none =>
      .ok { report with errors := report.errors ++
        [.format "Invalid include block: serde message not modelled".data] }
    | some (path, _integrity) =>
      if path ∈ seen then
        .error (.security (.circularInclude path))
      else
        match res.resolve_document path with
        | .ok included_doc =>
          let report :=
            if !included_doc.frontmatter.policy.allow_include then
              { report with errors := report.errors ++
                [.verification ("Document ".data ++ path ++
                  " does not allow inclusion".data)] }
            else report
          match recurse included_doc (path :: seen) with
          | .error e => .error e
          | .ok sub =>
            .ok { errors := report.errors ++ sub.errors,
                  warnings := report.warnings ++ sub.warnings }
        | .error e =>
          .ok { report with errors := report.errors ++
            [.resolution ("Failed to resolve include ".data ++ path ++
              ": ".data ++ e.display)] }

/-- Model of `Compiler::verify_recursive`.  The extra `fuel` argument
makes the recursion structural; the depth guard fires strictly before
fuel can run out for every call reachable from `Compiler.verify`
(`fuel + depth` stays at `MAX_INCLUDE_DEPTH + 2` there, so the
zero-fuel arm is unreachable), and for uniformity exhausted fuel yields
the same `MaxRecursionDepth` error the guard produces. -/
def verifyRecF (res : Resolver) (ext : Extractors) :
    Nat → TracedDocument → Nat → List (List Char) →
    Except RhodiError CompilationReport
  | 0, _, _, _ => .error (.security (.maxRecursionDepth MAX_INCLUDE_DEPTH))
  | fuel + 1, doc, depth, seen =>
    if depth > MAX_INCLUDE_DEPTH then
      .error (.security (.maxRecursionDepth MAX_INCLUDE_DEPTH))
    else do
      let (errs, warns) ← signatureCheck doc
      (parse_tmd_sections doc.body).foldlM
        (walkSection res ext
          (fun d s => verifyRecF res ext fuel d (depth + 1) s)
          doc.frontmatter.doc_status seen)
        { errors := errs, warnings := warns }

/-- Model of `Compiler::verify`: recursion from depth 0 with an empty
`seen` set. -/
def Compiler.verify (res : Resolver) (ext : Extractors)
    (doc : TracedDocument) : Except RhodiError CompilationReport :=
  verifyRecF res ext (MAX_INCLUDE_DEPTH + 2) doc 0 []

/-- Model of `Compiler::update` (the keypair parameter is unused in
the source as well). -/
def Compiler.update (doc : TracedDocument) (_keypair : Option KeyPair)
    (now : List Char) : Except RhodiError TracedDocument :=
  let doc := doc.update_modified_time now
  if doc.frontmatter.doc_status = .published ∨
      doc.frontmatter.doc_status = .revoked then
    .ok { doc with frontmatter :=
      { doc.frontmatter with
          doc_status := .draft, signature := none, version_hash := none } }
  else .ok doc

/-- Model of `Compiler::publish`.  The `Debug` rendering of the error
list in the refusal message is not modelled byte-exactly. -/
def Compiler.publish (res : Resolver) (ext : Extractors)
    (doc : TracedDocument) (keypair : KeyPair) (now : List Char) :
    Except RhodiError TracedDocument := do
  let report ← Compiler.verify res ext doc
  if report.errors ≠ [] then
    throw (.verification
      "Cannot publish due to verification errors: debug list not modelled".data)
  pure (doc.seal' keypair now)

/-- Model of `Compiler::revoke`.  The source reads the clock once in
`update_modified_time` and once in `seal`; the same instant is passed
for both. -/
def Compiler.revoke (doc : TracedDocument) (keypair : KeyPair)
    (now : List Char) : Except RhodiError TracedDocument :=
  let doc := { doc with frontmatter :=
    { doc.frontmatter with doc_status := .revoked } }
  let doc := doc.update_modified_time now
  .ok (doc.seal' keypair now)

/-! ## Predicates and fixtures used by the statements below -/

/-- The documented status invariant: a `Draft` or `Notes` document
carries no signature. -/
def statusInv (d : TracedDocument) : Prop :=
  (d.frontmatter.doc_status = .draft ∨ d.frontmatter.doc_status = .notes) →
    d.frontmatter.signature = none

/-- Concatenation of lines with a newline after each, the text the
section scanner accumulates when it consumes lines without closing a
fence. -/
def linesConcat (ls : List (List Char)) : List Char :=
  ls.foldr (fun l acc => l ++ '\n' :: acc) []

def countParent (l : List PathComp) : Nat :=
  l.countP (· = PathComp.parentDir)

def countNormal (l : List PathComp) : Nat :=
  l.countP fun c => match c with | .normal _ => true | _ => false

/-- Extractor parameters whose engines always fail; no fixture document
below carries a selector, so they are never invoked. -/
def noExtractors : Extractors :=
  { regexExtract := fun _ _ => .error (.extraction "regex engine not modelled".data)
    jsonpathExtract := fun _ _ => .error (.extraction "jsonpath engine not modelled".data) }

/-- A file-system view with no files. -/
def emptyFs : FsModel :=
  { pathExists := fun _ => false
    canonicalizePath := fun p => .ok p
    readFile := fun _ => .error (.io "no such file".data) }

def fixtureFM : FrontMatter :=
  { id := "0199aaaa-bbbb-7ccc-8ddd-eeeeffff0000".data
    version_hash := none
    title := "T".data
    author := none
    public_key := none
    signature := none
    created_at := "2025-01-01T00:00:00+00:00".data
    modified_at := none
    doc_status := .notes
    policy := Policy.default
    protocol_version := "1.0".data
    doc_version := 0
    prev_version_hash := none
    extra := none }

def fixtureDoc : TracedDocument := { frontmatter := fixtureFM, body := "hello".data }

/-- A document whose protocol version is not in the registry. -/
def badVersionDoc : TracedDocument :=
  { frontmatter := { fixtureFM with protocol_version := "9.9".data }
    body := "hello".data }

def mkIncludeDoc (target : List Char) : TracedDocument :=
  { frontmatter := fixtureFM
    body := "```include\npath: ".data ++ target ++ "\n```".data }

/-- A resolver never consulted by the fixtures that use it. -/
def emptyResolver : Resolver :=
  { resolve_bytes := fun _ => .error (.resolution "not found".data)
    resolve_document := fun _ => .error (.resolution "not found".data) }

/-- The diamond: the root includes `b` and `c`, each of which includes
`d`; no path repeats inside one chain. -/
def diamondResolver : Resolver :=
  { resolve_bytes := fun _ => .ok []
    resolve_document := fun s =>
      if s = "b".data then .ok (mkIncludeDoc "d".data)
      else if s = "c".data then .ok (mkIncludeDoc "d".data)
      else if s = "d".data then .ok fixtureDoc
      else .error (.resolution "not found".data) }

def diamondRoot : TracedDocument :=
  { frontmatter := fixtureFM
    body := "```include\npath: b\n```\n```include\npath: c\n```".data }

/-- The chain d0 → d1 → … → d6 of seven documents. -/
def chainResolver : Resolver :=
  { resolve_bytes := fun _ => .ok []
    resolve_document := fun s =>
      if s = "d1".data then .ok (mkIncludeDoc "d2".data)
      else if s = "d2".data then .ok (mkIncludeDoc "d3".data)
      else if s = "d3".data then .ok (mkIncludeDoc "d4".data)
      else if s = "d4".data then .ok (mkIncludeDoc "d5".data)
      else if s = "d5".data then .ok (mkIncludeDoc "d6".data)
      else if s = "d6".data then .ok fixtureDoc
      else .error (.resolution "not found".data) }

def chainRoot : TracedDocument := mkIncludeDoc "d1".data

/-- A `.tmd` text whose first `---` is not at the start of the file. -/
def lateDelimiterInput : List Char :=
  ("junk---\nid: 0199aaaa-bbbb-7ccc-8ddd-eeeeffff0000\ntitle: T\n" ++
   "created_at: 2025-01-02T03:04:05+00:00\ndoc_status: notes\n---\nbody").data

/-- A `.tmd` text whose frontmatter declares status `draft` together
with a 64-byte signature. -/
def draftWithSignatureInput : List Char :=
  ("---\nid: 0199aaaa-bbbb-7ccc-8ddd-eeeeffff0000\ntitle: T\n" ++
   "created_at: 2025-01-02T03:04:05+00:00\ndoc_status: draft\n" ++
   "signature: " ++ String.mk (List.replicate 128 'a') ++ "\n---\nbody").data

/-! # Theorems -/

example : canonicalize_text "hello  \n".data = "hello\n".data := by decide
example : canonicalize_text "a\n\n\n".data = "a\n\n".data := by decide
example : canonicalize_text "a\n\n".data = "a\n".data := by decide
example : canonicalize_text "".data = "".data := by decide
example : canonicalize_text ['a', '\xAD'] = ['a', '\xAD', '\n'] := by decide


/-! ### Basic lemmas about the string primitives -/

theorem dropWhile_idem (p : Char → Bool) (l : List Char) :
    (l.dropWhile p).dropWhile p = l.dropWhile p := by
  induction l with
  | nil => simp
  | cons a l ih =>
    by_cases h : p a <;> simp [List.dropWhile_cons, h, ih]

theorem head?_dropWhile (p : Char → Bool) (l : List Char) (c : Char)
    (h : (l.dropWhile p).head? = some c) : p c = false := by
  induction l with
  | nil => simp at h
  | cons a l ih =>
    by_cases ha : p a
    · simp [List.dropWhile_cons, ha] at h; exact ih h
    · simp [List.dropWhile_cons, ha] at h
      simpa [← h] using ha

theorem trimEndChars_idem (l : List Char) :
    trimEndChars (trimEndChars l) = trimEndChars l := by
  simp [trimEndChars, dropWhile_idem]

theorem mem_of_mem_trimEndChars {c : Char} {l : List Char}
    (h : c ∈ trimEndChars l) : c ∈ l := by
  simp only [trimEndChars, List.mem_reverse] at h
  simpa using (List.dropWhile_sublist _).mem h

theorem trimEndChars_getLast?_not_ws {l : List Char} {c : Char}
    (h : (trimEndChars l).getLast? = some c) : isRustWhitespace c = false := by
  rw [trimEndChars, List.getLast?_reverse] at h
  exact head?_dropWhile _ _ _ h

theorem not_mem_trimEndChars_of_not_mem {c : Char} {l : List Char}
    (h : c ∉ l) : c ∉ trimEndChars l :=
  fun hc => h (mem_of_mem_trimEndChars hc)

theorem splitNL_ne_nil : ∀ s : List Char, splitNL s ≠ []
  | [] => by simp [splitNL]
  | c :: rest => by
    unfold splitNL
    rcases h : splitNL rest with _ | ⟨l, ls⟩ <;>
      by_cases hc : c = '\n' <;> simp [hc]

theorem splitNL_cons_eq {rest : List Char} {l : List Char}
    {ls : List (List Char)} (c : Char) (h : splitNL rest = l :: ls) :
    splitNL (c :: rest) =
      if c = '\n' then [] :: l :: ls else (c :: l) :: ls := by
  unfold splitNL
  rw [h]

theorem splitNL_cons_newline (rest : List Char) :
    splitNL ('\n' :: rest) = [] :: splitNL rest := by
  rcases h : splitNL rest with _ | ⟨l, ls⟩
  · exact absurd h (splitNL_ne_nil rest)
  · rw [splitNL_cons_eq '\n' h, if_pos rfl, ← h]

theorem splitNL_append_newline {l : List Char} (s : List Char)
    (h : '\n' ∉ l) : splitNL (l ++ '\n' :: s) = l :: splitNL s := by
  induction l with
  | nil => simpa using splitNL_cons_newline s
  | cons a l ih =>
    have ha : a ≠ '\n' := fun hh => h (hh ▸ List.mem_cons_self a l)
    have hl : '\n' ∉ l := fun hh => h (List.mem_cons_of_mem a hh)
    rcases hsp : splitNL (l ++ '\n' :: s) with _ | ⟨l', ls'⟩
    · exact absurd hsp (splitNL_ne_nil _)
    · have := ih hl
      rw [hsp] at this
      cases this
      rw [List.cons_append, splitNL_cons_eq a hsp, if_neg ha]

theorem splitNL_no_newline : ∀ l : List Char, '\n' ∉ l → splitNL l = [l]
  | [], _ => rfl
  | a :: l, h => by
    have ha : a ≠ '\n' := fun hh => h (hh ▸ List.mem_cons_self a l)
    have hl : '\n' ∉ l := fun hh => h (List.mem_cons_of_mem a hh)
    rw [splitNL_cons_eq a (splitNL_no_newline l hl), if_neg ha]

theorem mem_of_mem_splitNL {c : Char} :
    ∀ {s l : List Char}, l ∈ splitNL s → c ∈ l → c ∈ s
  | [], l, hl, hc => by
    simp [splitNL] at hl
    subst hl
    simp at hc
  | a :: s, l, hl, hc => by
    rcases h : splitNL s with _ | ⟨l', ls'⟩
    · exact absurd h (splitNL_ne_nil s)
    · rw [splitNL_cons_eq a h] at hl
      by_cases ha : a = '\n'
      · rw [if_pos ha] at hl
        rcases List.mem_cons.mp hl with rfl | hl
        · simp at hc
        · exact List.mem_cons_of_mem a
            (mem_of_mem_splitNL (h ▸ hl) hc)
      · rw [if_neg ha] at hl
        rcases List.mem_cons.mp hl with rfl | hl
        · rcases List.mem_cons.mp hc with rfl | hc
          · exact List.mem_cons_self _ _
          · exact List.mem_cons_of_mem a
              (mem_of_mem_splitNL (h ▸ List.mem_cons_self l' ls') hc)
        · exact List.mem_cons_of_mem a
            (mem_of_mem_splitNL (h ▸ List.mem_cons_of_mem l' hl) hc)

theorem not_newline_mem_splitNL :
    ∀ {s l : List Char}, l ∈ splitNL s → '\n' ∉ l
  | [], l, hl => by
    simp [splitNL] at hl
    subst hl
    simp
  | a :: s, l, hl => by
    rcases h : splitNL s with _ | ⟨l', ls'⟩
    · exact absurd h (splitNL_ne_nil s)
    · rw [splitNL_cons_eq a h] at hl
      by_cases ha : a = '\n'
      · rw [if_pos ha] at hl
        rcases List.mem_cons.mp hl with rfl | hl
        · simp
        · exact not_newline_mem_splitNL (h ▸ hl)
      · rw [if_neg ha] at hl
        rcases List.mem_cons.mp hl with rfl | hl
        · intro hmem
          rcases List.mem_cons.mp hmem with heq | hmem
          · exact ha heq.symm
          · exact not_newline_mem_splitNL
              (h ▸ List.mem_cons_self l' ls') hmem
        · exact not_newline_mem_splitNL (h ▸ List.mem_cons_of_mem l' hl)

theorem splitNL_length (s : List Char) :
    (splitNL s).length = s.count '\n' + 1 := by
  induction s with
  | nil => simp [splitNL]
  | cons a s ih =>
    rcases h : splitNL s with _ | ⟨l, ls⟩
    · exact absurd h (splitNL_ne_nil s)
    · rw [splitNL_cons_eq a h]
      by_cases ha : a = '\n'
      · subst ha
        simp only [if_pos rfl, List.length_cons, List.count_cons]
        rw [h] at ih
        simp_all
      · simp only [if_neg ha, List.length_cons, List.count_cons]
        rw [h] at ih
        simp_all [ha, Ne.symm ha]

theorem mem_joinNL {c : Char} :
    ∀ {ls : List (List Char)}, c ∈ joinNL ls →
      c = '\n' ∨ ∃ l ∈ ls, c ∈ l
  | [], h => by simp [joinNL] at h
  | [l], h => by
    simp only [joinNL] at h
    exact Or.inr ⟨l, List.mem_cons_self _ _, h⟩
  | l :: l' :: ls, h => by
    simp only [joinNL, List.mem_append, List.mem_cons] at h
    rcases h with h | h | h
    · exact Or.inr ⟨l, List.mem_cons_self _ _, h⟩
    · exact Or.inl h
    · rcases mem_joinNL h with h' | ⟨l'', hl'', hc⟩
      · exact Or.inl h'
      · exact Or.inr ⟨l'', List.mem_cons_of_mem l hl'', hc⟩

theorem joinNL_getLast? :
    ∀ {ls : List (List Char)} {last : List Char},
      ls.getLast? = some last → last ≠ [] →
      (joinNL ls).getLast? = last.getLast?
  | [], _, h, _ => by simp at h
  | [l], last, h, _ => by
    simp only [List.getLast?_singleton, Option.some_inj] at h
    subst h
    rfl
  | l :: l' :: ls, last, h, hne => by
    have h' : (l' :: ls).getLast? = some last := by
      simpa using h
    have := joinNL_getLast? h' hne
    show (l ++ '\n' :: joinNL (l' :: ls)).getLast? = _
    rw [List.getLast?_append_of_ne_nil, List.getLast?_cons, ← this]
    · rcases hj : joinNL (l' :: ls) with _ | ⟨a, tl⟩
      · rw [hj] at this
        simp only [List.getLast?_nil] at this
        have : last.getLast? = none := this.symm
        rw [List.getLast?_eq_none_iff] at this
        exact absurd this hne
      · simp [List.getLast?_cons]
    · simp

theorem splitNL_joinNL_concat :
    ∀ {ls : List (List Char)}, ls ≠ [] → (∀ l ∈ ls, '\n' ∉ l) →
      splitNL (joinNL ls ++ ['\n']) = ls ++ [[]]
  | [], h, _ => absurd rfl h
  | [l], _, hnl => by
    have : joinNL [l] ++ ['\n'] = l ++ '\n' :: [] := rfl
    rw [this, splitNL_append_newline [] (hnl l (List.mem_cons_self _ _))]
    rfl
  | l :: l' :: ls, _, hnl => by
    have step : joinNL (l :: l' :: ls) ++ ['\n'] =
        l ++ '\n' :: (joinNL (l' :: ls) ++ ['\n']) := by
      show (l ++ '\n' :: joinNL (l' :: ls)) ++ ['\n'] = _
      simp
    rw [step,
      splitNL_append_newline _ (hnl l (List.mem_cons_self _ _)),
      splitNL_joinNL_concat (List.cons_ne_nil l' ls)
        (fun x hx => hnl x (List.mem_cons_of_mem l hx))]
    rfl

/-! ### Lemmas about `rustLines` -/

theorem rustLines_ne_nil {s : List Char} (h : s ≠ []) :
    rustLines s ≠ [] := by
  unfold rustLines
  rw [if_neg h]
  by_cases hl : s.getLast? = some '\n'
  · simp only [if_pos hl]
    intro hcontra
    rw [List.map_eq_nil_iff] at hcontra
    have hlen := congrArg List.length hcontra
    rw [List.length_dropLast, splitNL_length s] at hlen
    have hmem : '\n' ∈ s := List.mem_of_getLast?_eq_some hl
    have hcount : 0 < s.count '\n' := List.count_pos_iff.mpr hmem
    simp at hlen
    omega
  · simp [if_neg hl]

theorem exists_of_mem_rustLines {s l : List Char} (h : l ∈ rustLines s) :
    ∃ l₀ ∈ splitNL s, l.Sublist l₀ := by
  unfold rustLines at h
  by_cases hs : s = []
  · simp [if_pos hs] at h
  · rw [if_neg hs] at h
    have hdrop : ∀ x ∈ (splitNL s).dropLast.map dropFinalCR,
        ∃ l₀ ∈ splitNL s, x.Sublist l₀ := by
      intro x hx
      obtain ⟨y, hy, rfl⟩ := List.mem_map.mp hx
      refine ⟨y, (List.dropLast_sublist _).mem hy, ?_⟩
      unfold dropFinalCR
      split
      · exact List.dropLast_sublist y
      · exact List.Sublist.refl y
    by_cases hl : s.getLast? = some '\n'
    · rw [if_pos hl] at h
      exact hdrop l h
    · rw [if_neg hl] at h
      rcases List.mem_append.mp h with h' | h'
      · exact hdrop l h'
      · have hll : l = (splitNL s).getLastD [] := by simpa using h'
        have hne := splitNL_ne_nil s
        refine ⟨l, ?_, List.Sublist.refl l⟩
        rw [hll, List.getLastD_eq_getLast?,
          List.getLast?_eq_getLast _ hne]
        simp [List.getLast_mem]

theorem mem_of_mem_rustLines {s l : List Char} {c : Char}
    (hl : l ∈ rustLines s) (hc : c ∈ l) : c ∈ s := by
  obtain ⟨l₀, hl₀, hsub⟩ := exists_of_mem_rustLines hl
  exact mem_of_mem_splitNL hl₀ (hsub.mem hc)

theorem not_newline_mem_rustLines {s l : List Char}
    (hl : l ∈ rustLines s) : '\n' ∉ l := by
  obtain ⟨l₀, hl₀, hsub⟩ := exists_of_mem_rustLines hl
  exact fun hmem => not_newline_mem_splitNL hl₀ (hsub.mem hmem)

theorem rustLines_joinNL_concat {ls : List (List Char)} (hne : ls ≠ [])
    (hnl : ∀ l ∈ ls, '\n' ∉ l) (hcr : ∀ l ∈ ls, l.getLast? ≠ some '\r') :
    rustLines (joinNL ls ++ ['\n']) = ls := by
  have hsne : joinNL ls ++ ['\n'] ≠ [] := by simp
  have hslast : (joinNL ls ++ ['\n']).getLast? = some '\n' := by
    simp
  unfold rustLines
  rw [if_neg hsne]
  simp only [if_pos hslast]
  rw [splitNL_joinNL_concat hne hnl, List.dropLast_concat]
  have hid : ∀ l ∈ ls, dropFinalCR l = l := by
    intro l hl
    unfold dropFinalCR
    rw [if_neg (hcr l hl)]
  rw [List.map_congr_left hid]
  simp

theorem getLast?_map_eq {α β : Type} (f : α → β) (l : List α) :
    (l.map f).getLast? = l.getLast?.map f := by
  rw [← List.head?_reverse, ← List.map_reverse, List.head?_map,
    List.head?_reverse]

/-! ### Claim C2: idempotence of the canonicalizer -/

/-- C2 (counterexample): `canonicalize_text` is not idempotent.  On the
input `"a\n\n\n"` the first pass produces `"a\n\n"` (the final empty
line disappears through `lines`, but the joined text still ends in a
newline, so nothing more is appended), and a second pass collapses the
remaining trailing blank line to produce `"a\n"`. -/
theorem claim_C2_counterexample :
    canonicalize_text (canonicalize_text ['a', '\n', '\n', '\n']) ≠
      canonicalize_text ['a', '\n', '\n', '\n'] := by decide

/-- C2 (amended): canonicalization is idempotent on every input all of
whose characters survive the character filter and whose last line is
non-blank after trailing-whitespace stripping.  (In general a second
canonicalization can differ: trailing blank lines collapse one per
pass, and removing a filtered character can expose new trailing
whitespace.) -/
theorem claim_C2 (x : List Char)
    (h1 : ∀ c ∈ x, keepChar c = true)
    (h2 : ((rustLines x).getLast?.all
      fun ll => !(trimEndChars ll).isEmpty) = true) :
    canonicalize_text (canonicalize_text x) = canonicalize_text x := by
  by_cases hx : x = []
  · subst hx; rfl
  · have hrl : rustLines x ≠ [] := rustLines_ne_nil hx
    obtain ⟨ll, hll⟩ :=
      Option.isSome_iff_exists.mp (List.getLast?_isSome.mpr hrl)
    have htrim_ne : trimEndChars ll ≠ [] := by
      rw [hll] at h2
      simpa using h2
    have hls_ne : (rustLines x).map trimEndChars ≠ [] := by
      simpa using hrl
    have hls_last : ((rustLines x).map trimEndChars).getLast? =
        some (trimEndChars ll) := by
      rw [getLast?_map_eq, hll]
      rfl
    have hNoNL : ∀ l ∈ (rustLines x).map trimEndChars, '\n' ∉ l := by
      intro l hl
      obtain ⟨l₁, h₁, rfl⟩ := List.mem_map.mp hl
      exact not_mem_trimEndChars_of_not_mem (not_newline_mem_rustLines h₁)
    have hNoCR : ∀ l ∈ (rustLines x).map trimEndChars,
        l.getLast? ≠ some '\r' := by
      intro l hl heq
      obtain ⟨l₁, h₁, rfl⟩ := List.mem_map.mp hl
      have := trimEndChars_getLast?_not_ws heq
      exact absurd this (by decide)
    have hkeepJ : ∀ c ∈ joinNL ((rustLines x).map trimEndChars),
        keepChar c = true := by
      intro c hc
      rcases mem_joinNL hc with rfl | ⟨l, hl, hcl⟩
      · decide
      · obtain ⟨l₁, h₁, rfl⟩ := List.mem_map.mp hl
        exact h1 c (mem_of_mem_rustLines h₁ (mem_of_mem_trimEndChars hcl))
    have hfilter : (joinNL ((rustLines x).map trimEndChars)).filter
        keepChar = joinNL ((rustLines x).map trimEndChars) :=
      List.filter_eq_self.mpr hkeepJ
    have hlastJ : (joinNL ((rustLines x).map trimEndChars)).getLast? =
        (trimEndChars ll).getLast? := joinNL_getLast? hls_last htrim_ne
    obtain ⟨c0, hc0⟩ :=
      Option.isSome_iff_exists.mp (List.getLast?_isSome.mpr htrim_ne)
    have hc0ws := trimEndChars_getLast?_not_ws hc0
    have hc0ne : c0 ≠ '\n' := by
      intro h
      rw [h] at hc0ws
      exact absurd hc0ws (by decide)
    have hJne : joinNL ((rustLines x).map trimEndChars) ≠ [] := by
      intro h
      rw [h] at hlastJ
      rw [hc0] at hlastJ
      simp at hlastJ
    have hJlast_ne : (joinNL ((rustLines x).map trimEndChars)).getLast? ≠
        some '\n' := by
      rw [hlastJ, hc0]
      intro h
      injection h with h'
      exact hc0ne h'
    have stepA : canonicalize_text x =
        joinNL ((rustLines x).map trimEndChars) ++ ['\n'] := by
      simp only [canonicalize_text]
      rw [hfilter, if_pos ⟨hJne, hJlast_ne⟩]
    have hrlB : rustLines (joinNL ((rustLines x).map trimEndChars) ++
        ['\n']) = (rustLines x).map trimEndChars :=
      rustLines_joinNL_concat hls_ne hNoNL hNoCR
    have hmapB : ((rustLines x).map trimEndChars).map trimEndChars =
        (rustLines x).map trimEndChars := by
      rw [List.map_map]
      exact List.map_congr_left fun l _ => trimEndChars_idem l
    have stepB : canonicalize_text (joinNL ((rustLines x).map
        trimEndChars) ++ ['\n']) =
        joinNL ((rustLines x).map trimEndChars) ++ ['\n'] := by
      simp only [canonicalize_text]
      rw [hrlB, hmapB, hfilter, if_pos ⟨hJne, hJlast_ne⟩]
    rw [stepA, stepB]

/-- C2 (witness): the amended idempotence theorem applied at the
concrete input `"ab"`. -/
theorem claim_C2_witness :
    canonicalize_text (canonicalize_text "ab".data) =
      canonicalize_text "ab".data :=
  claim_C2 "ab".data (by decide) (by decide)

/-! ### Claim C9: which characters the canonicalizer removes -/

theorem inBannedRanges_lower {c : Char} (h : inBannedRanges c = true) :
    0x600 ≤ c.toNat := by
  simp only [inBannedRanges, Bool.or_eq_true, Bool.and_eq_true,
    beq_iff_eq, decide_eq_true_eq] at h
  omega

theorem of_keepChar {c : Char} (h : keepChar c = true) :
    inBannedRanges c = false ∧
      (isRustControl c = true →
        c.toNat = 9 ∨ c.toNat = 10 ∨ c.toNat = 13) := by
  by_cases h9 : (c.toNat == 9 || c.toNat == 10 || c.toNat == 13) = true
  · simp only [Bool.or_eq_true, beq_iff_eq] at h9
    refine ⟨?_, fun _ => or_assoc.mp h9⟩
    by_cases hb : inBannedRanges c = true
    · have := inBannedRanges_lower hb
      rcases h9 with (h9 | h9) | h9 <;> omega
    · simpa using hb
  · simp only [keepChar] at h
    rw [if_neg h9] at h
    by_cases hb : inBannedRanges c = true
    · rw [if_pos hb] at h
      simp at h
    · have hbf : inBannedRanges c = false := by simpa using hb
      rw [if_neg hb] at h
      refine ⟨hbf, fun hctl => ?_⟩
      by_cases h32 : (32 ≤ c.toNat && c.toNat ≤ 126) = true
      · simp only [Bool.and_eq_true, decide_eq_true_eq] at h32
        simp only [isRustControl, Bool.or_eq_true, Bool.and_eq_true,
          decide_eq_true_eq] at hctl
        omega
      · rw [if_neg h32] at h
        simp only [Bool.not_eq_true'] at h
        rw [h] at hctl
        simp at hctl

/-- C9 (counterexample): the output of `canonicalize_text` can contain
a Unicode `Cf` (format) character.  U+00AD (SOFT HYPHEN) has category
`Cf` but lies in none of the ranges hard-coded in the filter, and it is
not a `Cc` control, so it survives canonicalization. -/
theorem claim_C9_counterexample :
    isUnicodeCf '\xAD' = true ∧
      '\xAD' ∈ canonicalize_text ['a', '\xAD', 'b'] := by decide

/-- C9 (amended): every character in the output of `canonicalize_text`
lies outside the hard-coded removal ranges, and any control (`Cc`)
character in the output is tab, LF or CR.  (The claim that every
Unicode `Cf` character is removed fails: only the listed ranges are,
see `claim_C9_counterexample`.) -/
theorem claim_C9 (x : List Char) :
    ∀ c ∈ canonicalize_text x, inBannedRanges c = false ∧
      (isRustControl c = true →
        c.toNat = 9 ∨ c.toNat = 10 ∨ c.toNat = 13) := by
  intro c hc
  have hkeep : keepChar c = true := by
    simp only [canonicalize_text] at hc
    split at hc
    · rcases List.mem_append.mp hc with hc | hc
      · exact List.of_mem_filter hc
      · simp at hc
        subst hc
        decide
    · exact List.of_mem_filter hc
  exact of_keepChar hkeep

/-- C9 (witness): the amended theorem applied to the character `h` of
the canonicalization of `"hi"`. -/
theorem claim_C9_witness :
    inBannedRanges 'h' = false ∧
      (isRustControl 'h' = true →
        'h'.toNat = 9 ∨ 'h'.toNat = 10 ∨ 'h'.toNat = 13) :=
  claim_C9 "hi".data 'h' (by decide)

/-! ### Claim C3: where `parse_tmd` demands its delimiters -/

theorem countOccurAux_fuel (pat : List Char) :
    ∀ (n m : Nat) (s : List Char), s.length ≤ n → s.length ≤ m →
      countOccurAux pat n s = countOccurAux pat m s := by
  intro n
  induction n with
  | zero =>
    intro m s hn _
    have hs : s = [] := List.eq_nil_of_length_eq_zero (Nat.le_zero.mp hn)
    subst hs
    cases m <;> rfl
  | succ n ih =>
    intro m s hn hm
    cases s with
    | nil => cases m <;> rfl
    | cons c rest =>
      cases m with
      | zero => simp at hm
      | succ m =>
        simp only [countOccurAux]
        by_cases h : pat.isPrefixOf (c :: rest) ∧ pat ≠ []
        · rw [if_pos h, if_pos h]
          have hplen : 0 < pat.length := List.length_pos.mpr h.2
          simp only [List.length_cons] at hn hm
          rw [ih m (List.drop pat.length (c :: rest))
            (by simp only [List.length_drop, List.length_cons]; omega)
            (by simp only [List.length_drop, List.length_cons]; omega)]
        · rw [if_neg h, if_neg h]
          simp only [List.length_cons] at hn hm
          exact ih m rest (by omega) (by omega)

theorem findSub_rest_length {pat : List Char} :
    ∀ {s a rest : List Char}, findSub pat s = some (a, rest) →
      rest.length ≤ s.length := by
  intro s
  induction s with
  | nil =>
    intro a rest h
    unfold findSub at h
    split at h
    · injection h with h'
      cases h'
      simp
    · cases h
  | cons c tl ih =>
    intro a rest h
    unfold findSub at h
    by_cases hpre : pat.isPrefixOf (c :: tl)
    · rw [if_pos hpre] at h
      injection h with h'
      cases h'
      simp only [List.length_drop, List.length_cons]
      omega
    · rw [if_neg hpre] at h
      cases hfr : findSub pat tl with
      | none => rw [hfr] at h; cases h
      | some p =>
        rw [hfr] at h
        injection h with h'
        cases h'
        have := ih hfr
        simp only [List.length_cons]
        omega

theorem countOccurAux_of_findSub_some (pat : List Char) (hpat : pat ≠ []) :
    ∀ (n : Nat) (s a rest : List Char), s.length ≤ n →
      findSub pat s = some (a, rest) →
      countOccurAux pat n s = countOccurAux pat n rest + 1 := by
  intro n
  induction n with
  | zero =>
    intro s a rest hn hf
    have hs : s = [] := List.eq_nil_of_length_eq_zero (Nat.le_zero.mp hn)
    subst hs
    unfold findSub at hf
    rw [if_neg hpat] at hf
    cases hf
  | succ n ih =>
    intro s a rest hn hf
    cases s with
    | nil =>
      unfold findSub at hf
      rw [if_neg hpat] at hf
      cases hf
    | cons c tl =>
      unfold findSub at hf
      by_cases hpre : pat.isPrefixOf (c :: tl)
      · rw [if_pos hpre] at hf
        injection hf with hf'
        cases hf'
        have step : countOccurAux pat (n + 1) (c :: tl) =
            countOccurAux pat n ((c :: tl).drop pat.length) + 1 := by
          simp only [countOccurAux]
          rw [if_pos ⟨hpre, hpat⟩]
        rw [step]
        have hplen : 0 < pat.length := List.length_pos.mpr hpat
        simp only [List.length_cons] at hn
        rw [countOccurAux_fuel pat n (n + 1) (List.drop pat.length (c :: tl))
          (by simp only [List.length_drop, List.length_cons]; omega)
          (by simp only [List.length_drop, List.length_cons]; omega)]
      · rw [if_neg hpre] at hf
        cases hfr : findSub pat tl with
        | none => rw [hfr] at hf; cases hf
        | some p =>
          rw [hfr] at hf
          injection hf with hf'
          cases hf'
          have step : countOccurAux pat (n + 1) (c :: tl) =
              countOccurAux pat n tl := by
            simp only [countOccurAux]
            rw [if_neg (fun hh => hpre hh.1)]
          rw [step]
          simp only [List.length_cons] at hn
          rw [ih tl p.1 p.2 (by omega) hfr]
          have hp2 : p.2.length ≤ tl.length := findSub_rest_length hfr
          rw [countOccurAux_fuel pat n (n + 1) p.2 (by omega) (by omega)]

/-- C3 (counterexample): `parse_tmd` accepts an input whose first three
characters are not `---`: the text before the first `---` is ignored by
`splitn(3, "---")`. -/
theorem claim_C3_counterexample :
    (parse_tmd lateDelimiterInput).isOk = true ∧
      lateDelimiterInput.take 3 ≠ "---".data := by decide

/-- C3 (amended): `parse_tmd` does not require the first `---` to be
the first three characters of the file — it accepts inputs with text
before the first `---` (see `claim_C3_counterexample`) — and for every
input containing fewer than two occurrences of `---` it returns the
`Format` error below.  (What it does with a parseable delimiter pair is
not part of this claim.) -/
theorem claim_C3 (s : List Char) (h : countOccur "---".data s < 2) :
    parse_tmd s =
      .error (.format "Invalid TMD format: Missing frontmatter delimiters".data) := by
  unfold parse_tmd splitn3
  rcases h1 : findSub "---".data s with _ | ⟨a, rest⟩
  · simp [h1]
  · rcases h2 : findSub "---".data rest with _ | ⟨b, rest2⟩
    · simp [h1, h2]
    · exfalso
      unfold countOccur at h
      have e1 := countOccurAux_of_findSub_some "---".data
        (by decide) s.length s a rest (le_refl _) h1
      have hr : rest.length ≤ s.length := findSub_rest_length h1
      have e2 := countOccurAux_of_findSub_some "---".data
        (by decide) s.length rest b rest2 hr h2
      omega

/-- C3 (witness): an input without delimiters is refused. -/
theorem claim_C3_witness :
    parse_tmd "x".data =
      .error (.format "Invalid TMD format: Missing frontmatter delimiters".data) :=
  claim_C3 "x".data (by decide)

/-! ### Claim C4: path traversal rejection -/

theorem validateComponents_false_of_prefix :
    ∀ (pre post : List PathComp) (d : Int), 0 ≤ d →
      countNormal pre + d.toNat < countParent pre →
      validateComponents (pre ++ post) d = false := by
  intro pre
  induction pre with
  | nil =>
    intro post d _ hc
    exfalso
    simp [countParent, countNormal] at hc
  | cons c pre ih =>
    intro post d hd hc
    cases c with
    | normal seg =>
      simp only [List.cons_append, validateComponents]
      apply ih post (d + 1) (by omega)
      have h1 : countParent (PathComp.normal seg :: pre) = countParent pre := by
        simp [countParent, List.countP_cons]
      have h2 : countNormal (PathComp.normal seg :: pre) =
          countNormal pre + 1 := by
        simp [countNormal, List.countP_cons]
      rw [h1, h2] at hc
      omega
    | parentDir =>
      simp only [List.cons_append, validateComponents]
      by_cases hd0 : d - 1 < 0
      · rw [if_pos hd0]
      · rw [if_neg hd0]
        apply ih post (d - 1) (by omega)
        have h1 : countParent (PathComp.parentDir :: pre) =
            countParent pre + 1 := by
          simp [countParent, List.countP_cons]
        have h2 : countNormal (PathComp.parentDir :: pre) =
            countNormal pre := by
          simp [countNormal, List.countP_cons]
        rw [h1, h2] at hc
        omega
    | curDir =>
      simp only [List.cons_append, validateComponents]
      apply ih post d hd
      have h1 : countParent (PathComp.curDir :: pre) = countParent pre := by
        simp [countParent, List.countP_cons]
      have h2 : countNormal (PathComp.curDir :: pre) = countNormal pre := by
        simp [countNormal, List.countP_cons]
      rw [h1, h2] at hc
      exact hc

/-- C4 (confirmed): for every source string that is absolute or whose
component sequence has a prefix with more `..` segments than normal
segments, `resolve_bytes` fails with `Security::PathTraversal` — for
every file-system behaviour, so no file is read. -/
theorem claim_C4 (fs : FsModel) (r : FileResolver) (s : List Char)
    (h : isAbsolutePath s = true ∨
      ∃ pre post, pathComponents s = pre ++ post ∧
        countNormal pre < countParent pre) :
    FileResolver.resolve_bytes r fs s =
      .error (.security (.pathTraversal s r.root)) := by
  have herr : FileResolver.validate_path r fs s =
      .error (.security (.pathTraversal s r.root)) := by
    by_cases habs : isAbsolutePath s = true
    · unfold FileResolver.validate_path
      rw [if_pos habs]
    · rcases h with h | ⟨pre, post, hsplit, hcount⟩
      · exact absurd h habs
      · unfold FileResolver.validate_path
        rw [if_neg habs]
        have hval : validateComponents (pathComponents s) 0 = false := by
          rw [hsplit]
          exact validateComponents_false_of_prefix pre post 0 (by omega)
            (by simpa using hcount)
        simp [hval]
  unfold FileResolver.resolve_bytes
  rw [herr]
  rfl

/-- C4 (witness): the traversal guard fires on the concrete sources
`../etc/passwd` and `/etc/passwd` under the root `/root`, whatever the
file system contains. -/
theorem claim_C4_witness :
    FileResolver.resolve_bytes ⟨"/root".data⟩ emptyFs "../etc/passwd".data =
      .error (.security
        (.pathTraversal "../etc/passwd".data "/root".data)) :=
  claim_C4 emptyFs ⟨"/root".data⟩ "../etc/passwd".data
    (Or.inr ⟨[.parentDir], [.normal "etc".data, .normal "passwd".data],
      by decide, by decide⟩)

/-! ### Claim C1: seal / verify round-trip -/

theorem get_version_status_of_known {v : List Char}
    (h : is_version_known v = true) : get_version_status v = .current := by
  unfold is_version_known VERSION_REGISTRY at h
  simp only [List.any_eq_true, List.mem_cons, List.not_mem_nil, or_false,
    decide_eq_true_eq] at h
  obtain ⟨p, hp, hv⟩ := h
  rcases hp with rfl | rfl | rfl <;> simp at hv <;> subst hv <;> decide

/-- The version hash reads neither `version_hash` nor `signature`, so
overwriting them does not change it. -/
theorem compute_version_hash_set_outputs (fm : FrontMatter)
    (body : List Char) (vh : Option (List Nat)) (sig : Option Signature) :
    TracedDocument.compute_version_hash
      ⟨{ fm with version_hash := vh, signature := sig }, body⟩ =
    TracedDocument.compute_version_hash ⟨fm, body⟩ := rfl

/-- Verification succeeds on any document whose stored hash and
signature were just produced over its current contents by a matching
keypair, provided the protocol version is registered. -/
theorem verify_sealed_shape (fm : FrontMatter) (body : List Char)
    (kp : KeyPair) (hk : is_version_known fm.protocol_version = true) :
    TracedDocument.verify
      ⟨{ fm with
          version_hash :=
            some (TracedDocument.compute_version_hash ⟨fm, body⟩),
          signature :=
            some (kp.sign (TracedDocument.compute_version_hash ⟨fm, body⟩)) },
        body⟩ kp.verifying_key = .ok () := by
  have hst := get_version_status_of_known hk
  simp [TracedDocument.verify, hk, hst, compute_version_hash_set_outputs,
    VerifyingKey.verify_strict, KeyPair.sign, KeyPair.verifying_key]
  rfl

/-- C1 (amended): sealing then verifying with the matching public key
succeeds for every document whose `protocol_version` is in the
registry.  (For an unregistered version the claim fails, see
`claim_C1_counterexample`: `verify` refuses before any signature
check.) -/
theorem claim_C1 (d : TracedDocument) (kp : KeyPair) (now : List Char)
    (h : is_version_known d.frontmatter.protocol_version = true) :
    (d.seal' kp now).verify kp.verifying_key = .ok () := by
  unfold TracedDocument.seal'
  exact verify_sealed_shape _ d.body kp h

/-- C1 (counterexample): the round-trip claim fails as stated, at a
document whose `protocol_version` is `9.9`: sealing succeeds, but
`verify` rejects the unknown protocol version. -/
theorem claim_C1_counterexample :
    TracedDocument.verify (TracedDocument.seal' badVersionDoc ⟨42⟩ "t".data)
      (KeyPair.verifying_key ⟨42⟩) ≠ .ok () := by decide

/-- C1 (witness): the amended round-trip at a concrete document and
keypair. -/
theorem claim_C1_witness :
    (TracedDocument.seal' fixtureDoc ⟨42⟩
      "2025-01-02T00:00:00+00:00".data).verify
      (KeyPair.verifying_key ⟨42⟩) = .ok () :=
  claim_C1 fixtureDoc ⟨42⟩ "2025-01-02T00:00:00+00:00".data (by decide)

/-! ### Claim C7: the version chain after two seals -/

/-- C7 (confirmed): from `doc_version = 0` and no stored hash, two
seals chain the first hash into `prev_version_hash` and leave
`doc_version = 2`. -/
theorem claim_C7 (d : TracedDocument) (kp1 kp2 : KeyPair)
    (t1 t2 : List Char)
    (h0 : d.frontmatter.doc_version = 0)
    (h1 : d.frontmatter.version_hash = none) :
    ((d.seal' kp1 t1).seal' kp2 t2).frontmatter.prev_version_hash =
      (d.seal' kp1 t1).frontmatter.version_hash ∧
    ((d.seal' kp1 t1).seal' kp2 t2).frontmatter.doc_version = 2 := by
  simp [TracedDocument.seal', h0, h1]

/-- C7 (witness): the version chain at a concrete document and two
concrete keypairs. -/
theorem claim_C7_witness :
    (((fixtureDoc.seal' ⟨1⟩ "t1".data).seal'
        ⟨2⟩ "t2".data).frontmatter.prev_version_hash =
      (fixtureDoc.seal' ⟨1⟩ "t1".data).frontmatter.version_hash) ∧
    ((fixtureDoc.seal' ⟨1⟩ "t1".data).seal'
        ⟨2⟩ "t2".data).frontmatter.doc_version = 2 :=
  claim_C7 fixtureDoc ⟨1⟩ ⟨2⟩ "t1".data "t2".data (by decide) (by decide)

/-! ### Claim C8: the Draft/Notes-implies-unsigned invariant -/

theorem except_bind_ok {ε α β : Type} (a : α) (f : α → Except ε β) :
    (Except.ok a : Except ε α) >>= f = f a := rfl

theorem except_bind_error {ε α β : Type} (e : ε) (f : α → Except ε β) :
    (Except.error e : Except ε α) >>= f = .error e := rfl

theorem except_pure {ε α : Type} (a : α) :
    (pure a : Except ε α) = .ok a := rfl

theorem except_throw {ε α : Type} (e : ε) :
    (throw e : Except ε α) = .error e := rfl

theorem seal_doc_status (d : TracedDocument) (kp : KeyPair)
    (now : List Char) :
    (d.seal' kp now).frontmatter.doc_status = .published ∨
      (d.seal' kp now).frontmatter.doc_status = .revoked := by
  simp only [TracedDocument.seal']
  by_cases h : d.frontmatter.doc_status ≠ DocStatus.revoked
  · left
    simp [h]
  · right
    simp only [if_neg h]
    exact not_not.mp h

theorem statusInv_seal (d : TracedDocument) (kp : KeyPair)
    (now : List Char) : statusInv (d.seal' kp now) := by
  intro hcontra
  rcases seal_doc_status d kp now with h | h <;>
    rcases hcontra with hc | hc <;> rw [hc] at h <;> cases h

/-- C8 (amended): the invariant `Draft`/`Notes` ⇒ no signature is
established by `new`, `seal`, `publish` and `revoke` and preserved by
`update` and `update_all_traces` — but `parse_tmd` does not validate
it: a frontmatter declaring status `draft` together with a signature
parses successfully (see `claim_C8_counterexample`), so it is not true
of every document observable through the public operations. -/
theorem claim_C8 :
    (∀ id now title content,
      statusInv (TracedDocument.new id now title content)) ∧
    (∀ (d : TracedDocument) (kp : KeyPair) (now : List Char),
      statusInv (d.seal' kp now)) ∧
    (∀ (d : TracedDocument) (kp : Option KeyPair) (now : List Char)
        (r : TracedDocument),
      Compiler.update d kp now = .ok r → statusInv d → statusInv r) ∧
    (∀ (res : Resolver) (ext : Extractors) (d : TracedDocument)
        (kp : KeyPair) (now : List Char) (r : TracedDocument),
      Compiler.publish res ext d kp now = .ok r → statusInv r) ∧
    (∀ (d : TracedDocument) (kp : KeyPair) (now : List Char)
        (r : TracedDocument),
      Compiler.revoke d kp now = .ok r → statusInv r) ∧
    (∀ (fs : FsModel) (bp : List Char) (d : TracedDocument)
        (r : TracedDocument),
      TracedDocument.update_all_traces fs bp d = .ok r →
      statusInv d → statusInv r) := by
  refine ⟨?_, ?_, ?_, ?_, ?_, ?_⟩
  · intro id now title content _
    rfl
  · exact statusInv_seal
  · intro d kp now r h hinv
    simp only [Compiler.update, TracedDocument.update_modified_time] at h
    split at h
    · injection h with h'
      subst h'
      intro _
      rfl
    · injection h with h'
      subst h'
      exact hinv
  · intro res ext d kp now r h
    unfold Compiler.publish at h
    cases hv : Compiler.verify res ext d with
    | error e =>
      rw [hv] at h
      rw [except_bind_error] at h
      cases h
    | ok report =>
      rw [hv] at h
      rw [except_bind_ok] at h
      by_cases he : report.errors = []
      · have hne : ¬(report.errors ≠ []) := not_not_intro he
        simp only [if_neg hne, except_pure, except_bind_ok] at h
        injection h with h'
        subst h'
        exact statusInv_seal d kp now
      · simp only [if_pos he, except_throw, except_bind_error] at h
        cases h
  · intro d kp now r h
    unfold Compiler.revoke at h
    injection h with h'
    subst h'
    exact statusInv_seal _ kp now
  · intro fs bp d r h hinv
    simp only [TracedDocument.update_all_traces] at h
    cases hv : (parse_tmd_sections d.body).foldlM
        (updateTracesBody fs bp) [] with
    | error e =>
      rw [hv] at h
      rw [except_bind_error] at h
      cases h
    | ok nb =>
      rw [hv] at h
      rw [except_bind_ok, except_pure] at h
      injection h with h'
      subst h'
      exact hinv

/-- C8 (counterexample): `parse_tmd` returns a document with status
`Draft` and a present signature: the invariant is not validated at
parse time. -/
theorem claim_C8_counterexample :
    (parse_tmd draftWithSignatureInput).toOption.map
      (fun d => (d.frontmatter.doc_status, d.frontmatter.signature.isSome)) =
      some (.draft, true) := by decide

/-- C8 (witness): preservation through `update` at a concrete
document. -/
theorem claim_C8_witness :
    statusInv { fixtureDoc with frontmatter :=
      { fixtureFM with modified_at := some "t".data } } :=
  claim_C8.2.2.1 fixtureDoc none "t".data
    { fixtureDoc with frontmatter :=
      { fixtureFM with modified_at := some "t".data } }
    (by decide) (fun _ => rfl)

/-! ### Claim C10: unterminated fences fall back to a paragraph -/

theorem mem_dropWhile_of_neg {p : Char → Bool} {c : Char} :
    ∀ {l : List Char}, c ∈ l → p c = false → c ∈ l.dropWhile p := by
  intro l
  induction l with
  | nil => intro h _; simp at h
  | cons a tl ih =>
    intro hc hp
    by_cases hpa : p a
    · rcases List.mem_cons.mp hc with rfl | hc
      · rw [hp] at hpa; cases hpa
      · simpa [List.dropWhile_cons, hpa] using ih hc hp
    · simpa [List.dropWhile_cons, hpa] using hc

theorem trimChars_ne_nil_of_mem {l : List Char} {c : Char}
    (hc : c ∈ l) (hw : isRustWhitespace c = false) : trimChars l ≠ [] := by
  intro hnil
  unfold trimChars trimEndChars at hnil
  rw [List.reverse_eq_nil_iff, List.dropWhile_eq_nil_iff] at hnil
  have hcs : c ∈ trimStartChars l := mem_dropWhile_of_neg hc hw
  have := hnil c (List.mem_reverse.mpr hcs)
  rw [hw] at this
  cases this

theorem mem_of_isPrefixOf_trimStart {pat s : List Char} {c : Char}
    (hc : c ∈ pat) (h : pat.isPrefixOf (trimStartChars s) = true) :
    c ∈ s := by
  obtain ⟨t, ht⟩ := List.isPrefixOf_iff_prefix.mp h
  have hmem : c ∈ trimStartChars s := ht ▸ List.mem_append_left t hc
  exact (List.dropWhile_sublist _).mem hmem

/-- A line opening an include fence does not open a trace fence: the
two patterns differ at their fourth character. -/
theorem include_not_trace {s : List Char}
    (h : "```include".data.isPrefixOf s = true) :
    "```trace".data.isPrefixOf s = false := by
  obtain ⟨t, ht⟩ := List.isPrefixOf_iff_prefix.mp h
  rw [← ht]
  rfl

/-- Scanning inside a block whose closing fence never comes
accumulates every remaining line into `current` and flushes it as one
final paragraph (when non-blank). -/
theorem sectionsLoop_in_block (bt : List Char) :
    ∀ (tail : List (List Char)) (cur : List Char),
      (∀ l ∈ tail, "```".data.isPrefixOf (trimStartChars l) = false) →
      sectionsLoop tail true bt cur =
        if trimChars (cur ++ linesConcat tail) ≠ [] then
          [Section.paragraph (cur ++ linesConcat tail)]
        else [] := by
  intro tail
  induction tail with
  | nil =>
    intro cur _
    simp [sectionsLoop, linesConcat]
  | cons line rest ih =>
    intro cur hno
    have hline := hno line (List.mem_cons_self _ _)
    simp only [sectionsLoop, hline, Bool.false_eq_true, if_false, if_true]
    rw [ih (cur ++ line ++ ['\n'])
      (fun l hl => hno l (List.mem_cons_of_mem _ hl))]
    have hassoc : cur ++ line ++ ['\n'] ++ linesConcat rest =
        cur ++ linesConcat (line :: rest) := by
      simp [linesConcat]
    rw [hassoc]

/-- C10 (confirmed): a `\x60\x60\x60trace` or `\x60\x60\x60include`
fence line that is never closed is emitted, together with everything
after it, as a final `Paragraph` — never as a `Trace` or `Include`
section; `update_all_traces` appends a trailing paragraph verbatim, and
the compiler section walk leaves the report unchanged on a
paragraph. -/
theorem claim_C10 :
    (∀ (bt cur openLine : List Char) (tail : List (List Char)),
      ("```trace".data.isPrefixOf (trimStartChars openLine) = true ∨
        "```include".data.isPrefixOf (trimStartChars openLine) = true) →
      (∀ l ∈ tail, "```".data.isPrefixOf (trimStartChars l) = false) →
      sectionsLoop (openLine :: tail) false bt cur =
        (if trimChars cur ≠ [] then [Section.paragraph cur] else []) ++
          [Section.paragraph (openLine ++ '\n' :: linesConcat tail)]) ∧
    (∀ (fs : FsModel) (bp : List Char) (secs : List Section)
        (p acc : List Char),
      List.foldlM (updateTracesBody fs bp) acc
          (secs ++ [Section.paragraph p]) =
        (List.foldlM (updateTracesBody fs bp) acc secs).map (· ++ p)) ∧
    (∀ (res : Resolver) (ext : Extractors)
        (recurse : TracedDocument → List (List Char) →
          Except RhodiError CompilationReport)
        (status : DocStatus) (seen : List (List Char))
        (report : CompilationReport) (p : List Char),
      walkSection res ext recurse status seen report (.paragraph p) =
        .ok report) := by
  refine ⟨?_, ?_, ?_⟩
  · intro bt cur openLine tail hopen hno
    have hbt : Char.ofNat 96 ∈ openLine := by
      rcases hopen with h | h
      · exact mem_of_isPrefixOf_trimStart (by decide) h
      · exact mem_of_isPrefixOf_trimStart (by decide) h
    have hne : trimChars (openLine ++ '\n' :: linesConcat tail) ≠ [] :=
      trimChars_ne_nil_of_mem (List.mem_append_left _ hbt) (by decide)
    have hassoc : openLine ++ ['\n'] ++ linesConcat tail =
        openLine ++ '\n' :: linesConcat tail := by simp
    rcases hopen with h | h
    · simp only [sectionsLoop, Bool.false_eq_true, if_false, h, if_true]
      rw [sectionsLoop_in_block _ tail (openLine ++ ['\n']) hno, hassoc,
        if_pos hne]
    · have hnt := include_not_trace h
      simp only [sectionsLoop, Bool.false_eq_true, if_false, hnt, h,
        if_true]
      rw [sectionsLoop_in_block _ tail (openLine ++ ['\n']) hno, hassoc,
        if_pos hne]
  · intro fs bp secs p acc
    induction secs generalizing acc with
    | nil => rfl
    | cons sec rest ih =>
      simp only [List.cons_append, List.foldlM_cons]
      cases hsec : updateTracesBody fs bp acc sec with
      | error e => rfl
      | ok b =>
        show List.foldlM (updateTracesBody fs bp) b
            (rest ++ [Section.paragraph p]) =
          (List.foldlM (updateTracesBody fs bp) b rest).map (· ++ p)
        exact ih b
  · intro res ext recurse status seen report p
    rfl

/-- C10 (witness): the parser conjunct at a concrete unterminated
trace fence. -/
theorem claim_C10_witness :
    sectionsLoop ["```trace".data, "x".data] false [] [] =
      (if trimChars [] ≠ [] then [Section.paragraph []] else []) ++
        [Section.paragraph
          ("```trace".data ++ '\n' :: linesConcat ["x".data])] :=
  claim_C10.1 [] [] "```trace".data ["x".data] (Or.inl (by decide))
    (by decide)

/-! ### Claim C5: cycle abort and diamond tolerance -/

/-- A left fold in `Except` that runs through a prefix of sections the
step function always accepts and then hits a section on which it always
fails propagates that failure. -/
theorem foldlM_error_through {ε β α : Type} (f : β → α → Except ε β)
    (e : ε) :
    ∀ (pre : List α) (x : α) (post : List α) (init : β),
      (∀ (b : β) (a : α), a ∈ pre → ∃ b', f b a = .ok b') →
      (∀ b : β, f b x = .error e) →
      List.foldlM f init (pre ++ x :: post) = .error e := by
  intro pre
  induction pre with
  | nil =>
    intro x post init _ hx
    simp only [List.nil_append, List.foldlM_cons]
    rw [hx init]
    rfl
  | cons a pre ih =>
    intro x post init hok hx
    simp only [List.cons_append, List.foldlM_cons]
    obtain ⟨b', hb'⟩ := hok init a (List.mem_cons_self _ _)
    rw [hb']
    show List.foldlM f b' (pre ++ x :: post) = .error e
    exact ih x post b' (fun b a' ha' => hok b a' (List.mem_cons_of_mem _ ha'))
      hx

theorem walkSection_ok_of_benign {res : Resolver} {ext : Extractors}
    {recurse : TracedDocument → List (List Char) →
      Except RhodiError CompilationReport}
    {status : DocStatus} {seen : List (List Char)}
    (report : CompilationReport) (sec : Section)
    (hsec : (∃ t, sec = Section.paragraph t) ∨ ∃ tr, sec = Section.trace tr) :
    ∃ report', walkSection res ext recurse status seen report sec =
      .ok report' := by
  rcases hsec with ⟨t, rfl⟩ | ⟨tr, rfl⟩
  · exact ⟨report, rfl⟩
  · cases hvt : verify_trace res ext tr with
    | error e =>
      by_cases hst : status = DocStatus.published
      · exact ⟨_, by simp only [walkSection, hvt]; rw [if_pos hst]⟩
      · exact ⟨_, by simp only [walkSection, hvt]; rw [if_neg hst]⟩
    | ok u => exact ⟨report, by simp only [walkSection, hvt]⟩

/-- C5 (confirmed): during the recursive verification walk, an include
block whose path is already in the `seen` set of the current chain
aborts the whole verification with the hard `CircularInclude` error
(`Except.error`, not a report entry), whatever sections precede it in
the same body as long as they are paragraphs or traces (which never
abort); and the path is removed from `seen` on return, so the same
document included along two disjoint chains — the concrete diamond
below — produces a clean report. -/
theorem claim_C5 :
    (∀ (res : Resolver) (ext : Extractors) (fuel : Nat)
        (doc : TracedDocument) (depth : Nat) (seen : List (List Char))
        (pre post : List Section) (content p : List Char)
        (integ : Option (List Char)) (errs : List RhodiError)
        (warns : List (List Char)),
      depth ≤ MAX_INCLUDE_DEPTH →
      signatureCheck doc = .ok (errs, warns) →
      parse_tmd_sections doc.body =
        pre ++ Section.includeSection content :: post →
      (∀ sec ∈ pre, (∃ t, sec = Section.paragraph t) ∨
        ∃ tr, sec = Section.trace tr) →
      parseIncludeBlock content = some (p, integ) →
      p ∈ seen →
      verifyRecF res ext (fuel + 1) doc depth seen =
        .error (.security (.circularInclude p))) ∧
    Compiler.verify diamondResolver noExtractors diamondRoot =
      .ok { errors := [], warnings := [] } := by
  constructor
  · intro res ext fuel doc depth seen pre post content p integ errs warns
      hdepth hsig hsecs hpre hinc hseen
    have hguard : ¬ depth > MAX_INCLUDE_DEPTH := by omega
    simp only [verifyRecF, if_neg hguard]
    rw [hsig, except_bind_ok]
    rw [hsecs]
    apply foldlM_error_through
    · intro b a ha
      exact walkSection_ok_of_benign b a (hpre a ha)
    · intro b
      simp only [walkSection, hinc]
      rw [if_pos hseen]
  · decide

/-- C5 (witness): the cycle conjunct at a concrete document whose body
includes `d` while `d` is already on the current chain. -/
theorem claim_C5_witness :
    verifyRecF emptyResolver noExtractors (6 + 1) (mkIncludeDoc "d".data)
      0 ["d".data] = .error (.security (.circularInclude "d".data)) :=
  claim_C5.1 emptyResolver noExtractors 6 (mkIncludeDoc "d".data) 0
    ["d".data] [] [] "```include\npath: d\n```\n".data "d".data none [] []
    (by decide) (by decide) (by decide) (by simp) (by decide) (by decide)

/-! ### Claim C6: the depth guard -/

/-- C6 (confirmed): entering the recursive verification at depth
greater than `MAX_INCLUDE_DEPTH` (= 5) aborts the whole traversal with
the hard error `MaxRecursionDepth {depth: 5}` (the constant, not the
actual depth), and the concrete chain d0 → d1 → … → d6 of seven
documents makes `Compiler.verify` return exactly that error. -/
theorem claim_C6 :
    (∀ (res : Resolver) (ext : Extractors) (fuel : Nat)
        (doc : TracedDocument) (depth : Nat) (seen : List (List Char)),
      MAX_INCLUDE_DEPTH < depth →
      verifyRecF res ext fuel doc depth seen =
        .error (.security (.maxRecursionDepth MAX_INCLUDE_DEPTH))) ∧
    Compiler.verify chainResolver noExtractors chainRoot =
      .error (.security (.maxRecursionDepth 5)) := by
  constructor
  · intro res ext fuel doc depth seen h
    cases fuel with
    | zero => rfl
    | succ fuel => simp only [verifyRecF, if_pos h]
  · decide

/-- C6 (witness): the depth-guard conjunct at the concrete depth 6. -/
theorem claim_C6_witness :
    verifyRecF emptyResolver noExtractors 7 fixtureDoc 6 [] =
      .error (.security (.maxRecursionDepth MAX_INCLUDE_DEPTH)) :=
  claim_C6.1 emptyResolver noExtractors 7 fixtureDoc 6 [] (by decide)

end Rhodi
